import Mathlib

/-!
Verification development for the soft-body physics engine of the
`jello_space_pond` repository.

The Rust source computes with `f32`; following the claims, the arithmetic is
embedded exactly: rational numbers wherever the source only uses field
operations and comparisons, and real numbers (with `Real.sqrt`) for the
routines that normalize vectors (`LinearSpring::get_force`,
`SoftBody::check_point_against_line`).

The file `src/soft_body.rs` of the repository predates `src/simulation.rs` and
`src/constraint.rs`: the latter two use fields of `Point`
(`num_connections`, `constraint`) and items (`AttatchmentPoint`,
`AttatchmentPointHandle`, `ConnectionState`) that the shipped `soft_body.rs`
does not declare.  Those missing declarations are modelled from the spec, as
marked below; everything else is transcribed from the source.
-/

set_option autoImplicit false
set_option linter.unusedSectionVars false
set_option linter.unusedVariables false

namespace JelloSpacePond

/-- Two dimensional vector over a field, embedding `macroquad::math::Vec2`
(componentwise arithmetic). -/
structure Vec2 (R : Type) where
  x : R
  y : R
  deriving DecidableEq, Repr

namespace Vec2

variable {R : Type} [Field R]

instance : Add (Vec2 R) where
  add a b := ⟨a.x + b.x, a.y + b.y⟩

instance : Sub (Vec2 R) where
  sub a b := ⟨a.x - b.x, a.y - b.y⟩

instance : Neg (Vec2 R) where
  neg a := ⟨-a.x, -a.y⟩

instance : Zero (Vec2 R) where
  zero := ⟨0, 0⟩

instance : SMul R (Vec2 R) where
  smul c a := ⟨c * a.x, c * a.y⟩

instance : AddCommGroup (Vec2 R) where
  add_assoc a b c := congrArg₂ Vec2.mk (add_assoc a.x b.x c.x) (add_assoc a.y b.y c.y)
  zero_add a := congrArg₂ Vec2.mk (zero_add a.x) (zero_add a.y)
  add_zero a := congrArg₂ Vec2.mk (add_zero a.x) (add_zero a.y)
  add_comm a b := congrArg₂ Vec2.mk (add_comm a.x b.x) (add_comm a.y b.y)
  neg_add_cancel a := congrArg₂ Vec2.mk (neg_add_cancel a.x) (neg_add_cancel a.y)
  sub_eq_add_neg a b := congrArg₂ Vec2.mk (sub_eq_add_neg a.x b.x) (sub_eq_add_neg a.y b.y)
  nsmul := nsmulRec
  zsmul := zsmulRec

instance : Module R (Vec2 R) where
  one_smul a := congrArg₂ Vec2.mk (one_mul a.x) (one_mul a.y)
  mul_smul r s a := congrArg₂ Vec2.mk (mul_assoc r s a.x) (mul_assoc r s a.y)
  smul_zero r := congrArg₂ Vec2.mk (mul_zero r) (mul_zero r)
  smul_add r a b := congrArg₂ Vec2.mk (mul_add r a.x b.x) (mul_add r a.y b.y)
  add_smul r s a := congrArg₂ Vec2.mk (add_mul r s a.x) (add_mul r s a.y)
  zero_smul a := congrArg₂ Vec2.mk (zero_mul a.x) (zero_mul a.y)

/-- `Vec2::dot`. -/
def dot (a b : Vec2 R) : R :=
  a.x * b.x + a.y * b.y

/-- `Vec2::perp`: rotation by 90 degrees counterclockwise. -/
def perp (a : Vec2 R) : Vec2 R :=
  ⟨-a.y, a.x⟩

/-- `Vec2::perp_dot`: the 2d cross product. -/
def perp_dot (a b : Vec2 R) : R :=
  a.x * b.y - a.y * b.x

/-- `Vec2::lerp`: `self + (rhs - self) * s`. -/
def lerp (a b : Vec2 R) (s : R) : Vec2 R :=
  a + s • (b - a)

/-- `Vec2::distance_squared`. -/
def distance_squared (a b : Vec2 R) : R :=
  (a.x - b.x) ^ 2 + (a.y - b.y) ^ 2

end Vec2

/-- Scalar linear interpolation, `utils::lerp`. -/
def lerpScalar {R : Type} [Field R] (a b t : R) : R :=
  a + (b - a) * t

/-- `f32::EPSILON`, the machine epsilon of single precision floats. -/
def eps : ℚ := 1 / 2 ^ 23

/-- Parameters of a perimeter or internal spring, `LinearSpring` in
`soft_body.rs` (rational embedding; only the data is needed here, the force
law is treated over the reals below because it normalizes a vector). -/
structure LinearSpring where
  target_distance : ℚ
  force_constant : ℚ
  damping : ℚ
  compression : Bool
  tension : Bool
  deriving DecidableEq, Repr

/-- Parameters of an angular spring at a vertex, `AngularSpring` in
`soft_body.rs`. -/
structure AngularSpring where
  target_angle : ℚ
  force_constant : ℚ
  damping : ℚ
  inwards : Bool
  outwards : Bool
  deriving DecidableEq, Repr

/-- A point mass, `Point` in `soft_body.rs`.

The fields `num_connections` and `constraint` are used by `simulation.rs` and
`constraint.rs` but are missing from the shipped `soft_body.rs` (an older
revision).  Modelled from the spec: each point carries a connection counter
and a single optional constraint slot (the key of the `HoldTogether`
constraint holding it). -/
structure Point where
  position : Vec2 ℚ
  velocity : Vec2 ℚ
  impulse : Vec2 ℚ
  mass : ℚ
  spring : Option AngularSpring
  num_connections : ℕ
  constraint : Option ℕ
  deriving DecidableEq, Repr

/-- A perimeter edge, `Line` in `soft_body.rs`. -/
structure Line where
  spring : LinearSpring
  friction : ℚ
  deriving DecidableEq, Repr

/-- Axis aligned bounding box, `BoundingBox` in `soft_body.rs`. -/
structure BoundingBox where
  min_corner : Vec2 ℚ
  size : Vec2 ℚ
  deriving DecidableEq, Repr

namespace BoundingBox

/-- `BoundingBox::max_corner`. -/
def max_corner (b : BoundingBox) : Vec2 ℚ :=
  b.min_corner + b.size

/-- `BoundingBox::contains_point`: all four comparisons are strict. -/
def contains_point (b : BoundingBox) (p : Vec2 ℚ) : Bool :=
  decide (p.x > b.min_corner.x) && decide (p.y > b.min_corner.y) &&
    decide (p.x < b.max_corner.x) && decide (p.y < b.max_corner.y)

end BoundingBox

/-- Connection state of a body in the attachment graph.

Modelled from the spec: the defining `soft_body.rs` revision is missing; the
spec describes the three colors Source / Connected / Disconnected, with
`is_connected` holding for the bodies reachable from the source (`Source` and
`Connected`), as used by `clear_connections_from` and
`connect_attatched_soft_bodies` in `simulation.rs`. -/
inductive ConnectionState where
  | Disconnected
  | Connected
  | Source
  deriving DecidableEq, Repr

/-- `ConnectionState::is_connected`, modelled from the spec: true for
`Source` and `Connected`. -/
def ConnectionState.is_connected : ConnectionState → Bool
  | .Disconnected => false
  | .Connected => true
  | .Source => true

/-- Handle to an attachment point: body key plus index into the attachment
point list.  Modelled from the spec (declared in the missing `soft_body.rs`
revision, used throughout `simulation.rs`). -/
structure AttatchmentPointHandle where
  soft_body : ℕ
  index : ℕ
  deriving DecidableEq, Repr

/-- An attachment point: a contiguous span of perimeter points.

Modelled from the spec: a span starting at perimeter index `start_point` of
`length` consecutive points, carrying the handle of the attachment point it
is connected to, if any (fields as read by `simulation.rs`). -/
structure AttatchmentPoint where
  start_point : ℕ
  length : ℕ
  connection : Option AttatchmentPointHandle
  deriving DecidableEq, Repr

/-- A deformable body, `SoftBody` in `soft_body.rs`: the closed ring of
(point, outgoing edge) pairs plus internal springs and scalar state.  The
fields `attatchment_points` and `connection_state` are used by
`simulation.rs` but missing from the shipped `soft_body.rs`; they are
modelled from the spec. -/
structure SoftBody where
  shape : List (Point × Line)
  internal_springs : List ((ℕ × ℕ) × LinearSpring)
  bounding_box : BoundingBox
  gas_force : ℚ
  pressure : ℚ
  attatchment_points : List AttatchmentPoint
  connection_state : ConnectionState
  deriving DecidableEq, Repr

namespace Point

/-- `Point::apply_impulse_and_velocity`: half step with the old velocity,
fold the accumulated impulse into the velocity (then clear it), half step
with the new velocity. -/
def apply_impulse_and_velocity (p : Point) (dt : ℚ) : Point :=
  let position1 := p.position + (dt • ((1 / 2 : ℚ) • p.velocity))
  let velocity1 := p.velocity + p.mass⁻¹ • p.impulse
  let position2 := position1 + (dt • ((1 / 2 : ℚ) • velocity1))
  { p with position := position2, velocity := velocity1, impulse := 0 }

end Point

/-- Replace the element at one index of a list, leaving everything else in
place (total version of an in-place slice write). -/
def modifyIdx {A : Type} (f : A → A) : List A → ℕ → List A
  | [], _ => []
  | a :: as, 0 => f a :: as
  | a :: as, n + 1 => a :: modifyIdx f as n

/-- The default (point, line) pair, after the `Default` impls of
`soft_body.rs`; used as the out-of-range placeholder of total list reads of a
shape (the source indexes panic out of range, all reads below are in range
whenever the theorems apply). -/
def pointLineDefault : Point × Line :=
  (⟨0, 0, 0, 1, some ⟨0, 1, 1, true, true⟩, 0, none⟩, ⟨⟨1, 50, 10, true, true⟩, 1 / 4⟩)

/-- Index of the endpoint of perimeter edge `i`: the source steps with
`if i < length - 1 then i + 1 else 0`. -/
def nextIdx (n i : ℕ) : ℕ :=
  if i < n - 1 then i + 1 else 0

namespace SoftBody

/-- Position of the point at perimeter index `i`. -/
def pos (b : SoftBody) (i : ℕ) : Vec2 ℚ :=
  ((b.shape.getD i pointLineDefault).1).position

/-- `SoftBody::area`: the loop over `1..len-1` plus the two explicitly
unrolled terms at `i = len - 1` and `i = len` of the source, halved. -/
def area (b : SoftBody) : ℚ :=
  let n := b.shape.length
  let loopSum := Finset.sum (Finset.Ico 1 (n - 1)) fun i =>
    (b.pos i).x * ((b.pos (i + 1)).y - (b.pos (i - 1)).y)
  let double_area := loopSum
    + (b.pos (n - 1)).x * ((b.pos 0).y - (b.pos (n - 2)).y)
    + (b.pos 0).x * ((b.pos 1).y - (b.pos (n - 1)).y)
  double_area / 2

/-- Add `v` to the accumulated impulse of the point at index `i`. -/
def addImpulseAt (shape : List (Point × Line)) (i : ℕ) (v : Vec2 ℚ) :
    List (Point × Line) :=
  modifyIdx (fun pl => ({ pl.1 with impulse := pl.1.impulse + v }, pl.2)) shape i

/-- `SoftBody::add_pressure_impulse`: when the gas force is at most machine
epsilon in magnitude, clear the pressure and return; otherwise set
`pressure = gas_force / area` and, for every perimeter edge, add half of
`perp(edge) * pressure * dt` to the impulse of each endpoint. -/
def add_pressure_impulse (b : SoftBody) (dt : ℚ) : SoftBody :=
  if |b.gas_force| ≤ eps then { b with pressure := 0 }
  else
    let pressure := b.gas_force / b.area
    let n := b.shape.length
    let shape1 := (List.range n).foldl (fun shape i =>
      let point_a := (shape.getD i pointLineDefault).1
      let point_b := (shape.getD (nextIdx n i) pointLineDefault).1
      let force_direction := Vec2.perp (point_a.position - point_b.position)
      let pressure_force := pressure • force_direction
      let shape2 := addImpulseAt shape i ((dt / 2) • pressure_force)
      addImpulseAt shape2 (nextIdx n i) ((dt / 2) • pressure_force)) b.shape
    { b with pressure := pressure, shape := shape1 }

end SoftBody

/-- Contribution of one perimeter edge to the ray casting intersection count
of `SoftBody::contains_point`, for a horizontal ray to the right of `p`:
transcribes the body of the `for` loop, including the fall through from the
both-to-the-right branch to the split computation. -/
def edgeContribution (point_a point_b p : Vec2 ℚ) : ℕ :=
  if point_a.x ≤ p.x ∧ point_b.x ≤ p.x then 0
  else if (point_a.y ≥ p.y ∧ point_b.y ≥ p.y) ∨ (point_a.y ≤ p.y ∧ point_b.y ≤ p.y) then 0
  else
    let split :=
      let left_point := if point_a.x < point_b.x then point_a else point_b
      let right_point := if point_a.x < point_b.x then point_b else point_a
      let scaled_sin_angle := Vec2.perp_dot (right_point - left_point) (p - left_point)
      let intersection :=
        if left_point.y > right_point.y then scaled_sin_angle < 0 else scaled_sin_angle > 0
      if intersection then 1 else 0
    if point_a.x > p.x ∧ point_b.x > p.x then
      if max point_a.y point_b.y > p.y ∧ min point_a.y point_b.y ≤ p.y then 1 else split
    else split

/-- `SoftBody::contains_point`: bounding box rejection first, then the even
odd ray casting count over all perimeter edges. -/
def SoftBody.contains_point (b : SoftBody) (p : Vec2 ℚ) : Bool :=
  if b.bounding_box.contains_point p then
    let n := b.shape.length
    let num_intersections := (List.range n).foldl (fun acc i =>
      acc + edgeContribution (b.pos i) (b.pos (nextIdx n i)) p) 0
    num_intersections % 2 == 1
  else false

/-- The shoelace formula for the signed area of the polygon with the given
vertex list, stated from the words of the spec (counterclockwise positive):
half the cyclic sum of the cross products of consecutive vertices. -/
def shoelace (pts : List (Vec2 ℚ)) : ℚ :=
  (Finset.sum (Finset.range pts.length) fun i =>
    Vec2.perp_dot (pts.getD i 0) (pts.getD ((i + 1) % pts.length) 0)) / 2

/-- Handle of a point: soft body key plus index into its shape
(`PointHandle` in `constraint.rs`).  Slot map keys are modelled as natural
numbers handed out by a monotone counter. -/
structure PointHandle where
  soft_body : ℕ
  index : ℕ
  deriving DecidableEq, Repr

/-- The slot map of soft bodies, modelled as an association list of
key-body pairs. -/
abbrev SoftBodies := List (ℕ × SoftBody)

/-- `HopSlotMap::get`: first entry with the given key. -/
def lookupBody (m : SoftBodies) (k : ℕ) : Option SoftBody :=
  (m.find? (fun e => e.1 = k)).map Prod.snd

/-- Update the body stored under key `k` in place. -/
def updateBody (m : SoftBodies) (k : ℕ) (f : SoftBody → SoftBody) : SoftBodies :=
  m.map (fun e => if e.1 = k then (e.1, f e.2) else e)

/-- `PointHandle::get`: resolve the handle to its point, if the body is live
and the index in range. -/
def getPoint (m : SoftBodies) (h : PointHandle) : Option Point :=
  (lookupBody m h.soft_body).bind fun b => (b.shape.get? h.index).map Prod.fst

/-- `PointHandle::get_mut` followed by a write: apply `f` to the point the
handle resolves to (no effect on an unresolvable handle). -/
def modifyPoint (m : SoftBodies) (h : PointHandle) (f : Point → Point) : SoftBodies :=
  updateBody m h.soft_body fun b =>
    { b with shape := modifyIdx (fun pl => (f pl.1, pl.2)) b.shape h.index }

/-- A constraint (`constraint.rs`): the enum has the single variant
`HoldTogether { points }`, so it is modelled as its payload. -/
structure Constraint where
  points : List PointHandle
  deriving DecidableEq, Repr

/-- The prune loop of `Constraint::apply_to_soft_bodies`: drops the handles
that do not resolve or whose point has an empty constraint slot, and
accumulates total mass, total momentum and total mass moment of the
remaining points. -/
def pruneAndSum (m : SoftBodies) : List PointHandle → List PointHandle × ℚ × Vec2 ℚ × Vec2 ℚ
  | [] => ([], 0, 0, 0)
  | h :: rest =>
    match getPoint m h with
    | none => pruneAndSum m rest
    | some p =>
      if p.constraint = none then pruneAndSum m rest
      else
        let r := pruneAndSum m rest
        (h :: r.1, p.mass + r.2.1, p.mass • p.velocity + r.2.2.1, p.mass • p.position + r.2.2.2)

/-- `Constraint::apply_to_soft_bodies`: prune stale members, then overwrite
every remaining member point with the mass weighted average position and
velocity.  Returns the pruned constraint and the updated bodies. -/
def Constraint.apply_to_soft_bodies (c : Constraint) (m : SoftBodies) :
    Constraint × SoftBodies :=
  let r := pruneAndSum m c.points
  let total_mass := r.2.1
  let average_velocity := total_mass⁻¹ • r.2.2.1
  let average_position := total_mass⁻¹ • r.2.2.2
  (Constraint.mk r.1,
   r.1.foldl (fun acc h => modifyPoint acc h
      (fun p => { p with position := average_position, velocity := average_velocity })) m)

/-- The whole simulation state relevant to the connection protocol
(`Simulation` in `simulation.rs`): bodies, constraints, and the counter
handing out fresh constraint keys. -/
structure Simulation where
  soft_bodies : SoftBodies
  constraints : List (ℕ × Constraint)
  next_constraint_key : ℕ
  deriving DecidableEq, Repr

/-- First constraint stored under the given key. -/
def lookupConstraint (cs : List (ℕ × Constraint)) (k : ℕ) : Option Constraint :=
  (cs.find? (fun e => e.1 = k)).map Prod.snd

/-- `HopSlotMap::remove`: drop the entries stored under the key. -/
def removeConstraintEntry (cs : List (ℕ × Constraint)) (k : ℕ) : List (ℕ × Constraint) :=
  cs.filter (fun e => e.1 ≠ k)

/-- Update the constraint stored under key `k` in place. -/
def updateConstraint (cs : List (ℕ × Constraint)) (k : ℕ) (f : Constraint → Constraint) :
    List (ℕ × Constraint) :=
  cs.map (fun e => if e.1 = k then (e.1, f e.2) else e)

/-- `Constraint::insert`: walk the member handles, pruning the unresolvable
ones; each surviving point gets this constraint key written into its slot,
and the previously held keys are collected for replacement. -/
def constraintInsert (key : ℕ) : List PointHandle → SoftBodies →
    List PointHandle × SoftBodies × List ℕ
  | [], m => ([], m, [])
  | h :: rest, m =>
    match getPoint m h with
    | none => constraintInsert key rest m
    | some p =>
      let m1 := modifyPoint m h (fun q => { q with constraint := some key })
      let r := constraintInsert key rest m1
      (h :: r.1, r.2.1, (match p.constraint with | some k0 => [k0] | none => []) ++ r.2.2)

/-- `Constraint::remove`: clear the slot of every member point that still
records the removed key, replacing it by the optional replacement key and
collecting the regrouped handles when a replacement is given. -/
def constraintRemovePoints (key : ℕ) (replacement : Option ℕ) :
    List PointHandle → SoftBodies → SoftBodies × List PointHandle
  | [], m => (m, [])
  | h :: rest, m =>
    match getPoint m h with
    | none => constraintRemovePoints key replacement rest m
    | some p =>
      if p.constraint = some key then
        let m1 := modifyPoint m h (fun q => { q with constraint := replacement })
        let r := constraintRemovePoints key replacement rest m1
        (r.1, (if replacement.isSome then [h] else []) ++ r.2)
      else constraintRemovePoints key replacement rest m

/-- `Simulation::remove_constraint`: take the constraint out of the
collection, clear or migrate the slots of its points, and append the
regrouped points to the replacement constraint when one is given. -/
def Simulation.remove_constraint (sim : Simulation) (key : ℕ) (replacement : Option ℕ) :
    Option Constraint × Simulation :=
  match lookupConstraint sim.constraints key with
  | none => (none, sim)
  | some c =>
    let constraints1 := removeConstraintEntry sim.constraints key
    let r := constraintRemovePoints key replacement c.points sim.soft_bodies
    let constraints2 :=
      match replacement with
      | some repl => updateConstraint constraints1 repl
          (fun rc => Constraint.mk (rc.points ++ r.2))
      | none => constraints1
    (some c, { sim with soft_bodies := r.1, constraints := constraints2 })

/-- `Simulation::insert_constraint`: hand out a fresh key, let the
constraint write itself into its points, store it, then remove every
replaced constraint with this one as the replacement. -/
def Simulation.insert_constraint (sim : Simulation) (c : Constraint) : ℕ × Simulation :=
  let key := sim.next_constraint_key
  let r := constraintInsert key c.points sim.soft_bodies
  let sim1 : Simulation :=
    { sim with
        soft_bodies := r.2.1,
        constraints := sim.constraints ++ [(key, Constraint.mk r.1)],
        next_constraint_key := key + 1 }
  (key, r.2.2.foldl (fun s k => (s.remove_constraint k (some key)).2) sim1)

/-- Index step of the backward walk along a span: the source steps with
`if i > 0 then i - 1 else length - 1`. -/
def prevIdx (n i : ℕ) : ℕ :=
  if i > 0 then i - 1 else n - 1

/-- Write a connection into one attachment point. -/
def updateApConn (m : SoftBodies) (h : AttatchmentPointHandle)
    (c : Option AttatchmentPointHandle) : SoftBodies :=
  updateBody m h.soft_body fun b =>
    { b with attatchment_points :=
        modifyIdx (fun ap => { ap with connection := c }) b.attatchment_points h.index }

/-- `Simulation::connect_attatched_soft_bodies`: recursive recoloring of the
bodies reachable through connections, turning `Disconnected` into
`Connected`; bounded by explicit fuel (the source recursion, which only
ever touches `connection_state` fields). -/
def connectAttatched : ℕ → ℕ → SoftBodies → SoftBodies
  | 0, _, m => m
  | fuel + 1, k, m =>
    match lookupBody m k with
    | none => m
    | some b =>
      if b.connection_state = ConnectionState.Disconnected ∨
          b.connection_state = ConnectionState.Source then
        let m1 := if b.connection_state = ConnectionState.Disconnected then
            updateBody m k (fun bb => { bb with connection_state := ConnectionState.Connected })
          else m
        b.attatchment_points.foldl (fun acc ap =>
          match ap.connection with
          | none => acc
          | some h => connectAttatched fuel h.soft_body acc) m1
      else m

/-- `Simulation::clear_connections_from`: recursive recoloring turning
`Connected` into `Disconnected` along the connection graph, reporting the
`Source` body when one is reached; bounded by explicit fuel. -/
def clearConnections : ℕ → ℕ → SoftBodies → Option ℕ × SoftBodies
  | 0, _, m => (none, m)
  | fuel + 1, k, m =>
    match lookupBody m k with
    | none => (none, m)
    | some b =>
      if b.connection_state.is_connected then
        let m1 := if b.connection_state = ConnectionState.Connected then
            updateBody m k (fun bb => { bb with connection_state := ConnectionState.Disconnected })
          else m
        let source0 : Option ℕ :=
          if b.connection_state = ConnectionState.Source then some k else none
        b.attatchment_points.foldl (fun acc ap =>
          match ap.connection with
          | none => acc
          | some h =>
            let r := clearConnections fuel h.soft_body acc.2
            (if r.1.isSome then r.1 else acc.1, r.2)) (source0, m1)
      else (none, m)

/-- The forward half of the span walk of `connect_attatchment_points`:
increment the connection counter of the paired points (span a walked
forwards, span b backwards) and build one `HoldTogether` constraint per
pair, in walk order. -/
def connectWalk (ka kb length_a length_b : ℕ) :
    ℕ → ℕ → ℕ → SoftBodies → SoftBodies × List Constraint
  | 0, _, _, m => (m, [])
  | count + 1, pa, pb, m =>
    let m1 := modifyPoint m ⟨ka, pa⟩
      (fun p => { p with num_connections := p.num_connections + 1 })
    let m2 := modifyPoint m1 ⟨kb, pb⟩
      (fun p => { p with num_connections := p.num_connections + 1 })
    let c : Constraint := Constraint.mk [⟨ka, pa⟩, ⟨kb, pb⟩]
    let r := connectWalk ka kb length_a length_b count (nextIdx length_a pa) (prevIdx length_b pb) m2
    (r.1, c :: r.2)

/-- The span walk of `disconnect_attatchment_point`: decrement the
connection counter of the paired points and clear the constraint slot of
any point whose counter reaches zero. -/
def disconnectWalk (ka kb length_a length_b : ℕ) :
    ℕ → ℕ → ℕ → SoftBodies → SoftBodies
  | 0, _, _, m => m
  | count + 1, pa, pb, m =>
    let m1 := modifyPoint m ⟨ka, pa⟩
      (fun p => { p with num_connections := p.num_connections - 1 })
    let m2 := modifyPoint m1 ⟨kb, pb⟩
      (fun p => { p with num_connections := p.num_connections - 1 })
    let m3 := modifyPoint m2 ⟨ka, pa⟩
      (fun p => if p.num_connections = 0 then { p with constraint := none } else p)
    let m4 := modifyPoint m3 ⟨kb, pb⟩
      (fun p => if p.num_connections = 0 then { p with constraint := none } else p)
    disconnectWalk ka kb length_a length_b count (nextIdx length_a pa) (prevIdx length_b pb) m4

/-- The flood fill `connect_attatchment_points` runs before any
validation: when either body is currently connected to the source, recolor
the component of the other handle. -/
def Simulation.connectFlood (sim : Simulation)
    (handle_a handle_b : AttatchmentPointHandle) : Simulation :=
  let fuel := sim.soft_bodies.length + 1
  let aConnected :=
    ((lookupBody sim.soft_bodies handle_a.soft_body).map
      (fun b => b.connection_state.is_connected)).getD false
  let bConnected :=
    ((lookupBody sim.soft_bodies handle_b.soft_body).map
      (fun b => b.connection_state.is_connected)).getD false
  if aConnected then
    { sim with soft_bodies := connectAttatched fuel handle_b.soft_body sim.soft_bodies }
  else if bConnected then
    { sim with soft_bodies := connectAttatched fuel handle_a.soft_body sim.soft_bodies }
  else sim

/-- `Simulation::connect_attatchment_points`.  Note the order of the
source: the connection state flood fill runs first, before any validation;
then the disjoint lookup of the two bodies and of the two attachment points,
the compatibility check (equal span lengths, both unconnected), and only
then the mutation of connections, counters and constraints.  Returns the
explicit failure or success marker together with the updated state. -/
def Simulation.connect_attatchment_points (sim : Simulation)
    (handle_a handle_b : AttatchmentPointHandle) : Option Unit × Simulation :=
  let sim1 : Simulation := sim.connectFlood handle_a handle_b
  if handle_a.soft_body = handle_b.soft_body then (none, sim1)
  else
    match lookupBody sim1.soft_bodies handle_a.soft_body,
        lookupBody sim1.soft_bodies handle_b.soft_body with
    | some soft_body_a, some soft_body_b =>
      let length_a := soft_body_a.shape.length
      let length_b := soft_body_b.shape.length
      match soft_body_a.attatchment_points.get? handle_a.index,
          soft_body_b.attatchment_points.get? handle_b.index with
      | some ap_a, some ap_b =>
        if ap_a.length ≠ ap_b.length ∨ ap_a.connection.isSome ∨ ap_b.connection.isSome then
          (none, sim1)
        else
          let m2 := updateApConn (updateApConn sim1.soft_bodies handle_a (some handle_b))
            handle_b (some handle_a)
          let start_b := (ap_b.start_point + ap_b.length - 1) % length_b
          let r := connectWalk handle_a.soft_body handle_b.soft_body length_a length_b
            ap_a.length ap_a.start_point start_b m2
          let sim3 : Simulation := { sim1 with soft_bodies := r.1 }
          (some (), r.2.foldl (fun s c => (s.insert_constraint c).2) sim3)
      | _, _ => (none, sim1)
    | _, _ => (none, sim1)

/-- `Simulation::disconnect_attatchment_point`: clear the connection colors
from the disconnecting body first (remembering the source when one is
reached), validate the back reference of the connection, then undo the
connection: reset both connection fields, walk the paired spans decrementing
counters and clearing the constraint slots of points with no connections
left, and finally recolor from the source if one was found. -/
def Simulation.disconnect_attatchment_point (sim : Simulation)
    (handle_a : AttatchmentPointHandle) : Option Unit × Simulation :=
  let fuel := sim.soft_bodies.length + 1
  let cleared := clearConnections fuel handle_a.soft_body sim.soft_bodies
  let source := cleared.1
  let m0 := cleared.2
  let sim0 : Simulation := { sim with soft_bodies := m0 }
  match (lookupBody m0 handle_a.soft_body).bind
      (fun b => b.attatchment_points.get? handle_a.index) with
  | none => (none, sim0)
  | some ap_a0 =>
    match ap_a0.connection with
    | none => (none, sim0)
    | some handle_b =>
      match (lookupBody m0 handle_b.soft_body).bind
          (fun b => b.attatchment_points.get? handle_b.index) with
      | none => (none, sim0)
      | some ap_b0 =>
        if ap_b0.connection ≠ some handle_a then (none, sim0)
        else if handle_a.soft_body = handle_b.soft_body then (none, sim0)
        else
          match lookupBody m0 handle_a.soft_body, lookupBody m0 handle_b.soft_body with
          | some soft_body_a, some soft_body_b =>
            let length_a := soft_body_a.shape.length
            let length_b := soft_body_b.shape.length
            let m1 := updateApConn (updateApConn m0 handle_a none) handle_b none
            let start_b := (ap_b0.start_point + ap_b0.length - 1) % length_b
            let m2 := disconnectWalk handle_a.soft_body handle_b.soft_body length_a length_b
              ap_a0.length ap_a0.start_point start_b m1
            let m3 :=
              match source with
              | some s => connectAttatched fuel s m2
              | none => m2
            (some (), { sim0 with soft_bodies := m3 })
          | _, _ => (none, sim0)

/-- Total accumulated impulse over the shape of a body. -/
def totalImpulse (shape : List (Point × Line)) : Vec2 ℚ :=
  (shape.map (fun pl => pl.1.impulse)).sum

/-- The cyclic summand of the unrolled area computation. -/
def areaTerm (b : SoftBody) (i : ℕ) : ℚ :=
  (b.pos i).x * ((b.pos ((i + 1) % b.shape.length)).y -
    (b.pos ((i + (b.shape.length - 1)) % b.shape.length)).y)

/-- The member handles a `HoldTogether` application keeps: those resolving
to a live point whose constraint slot is occupied. -/
def keptMembers (m : SoftBodies) (hs : List PointHandle) : List PointHandle :=
  hs.filter (fun h => ((getPoint m h).map (fun p => p.constraint.isSome)).getD false)

/-- The points a handle list resolves to, in order. -/
def resolvedPoints (m : SoftBodies) (hs : List PointHandle) : List Point :=
  hs.filterMap (getPoint m)

/-- Total mass of a point list. -/
def totalMassOf (ps : List Point) : ℚ :=
  (ps.map Point.mass).sum

/-- Total momentum (mass weighted velocity sum) of a point list. -/
def weightedVelocityOf (ps : List Point) : Vec2 ℚ :=
  (ps.map (fun p => p.mass • p.velocity)).sum

/-- Total mass moment (mass weighted position sum) of a point list. -/
def weightedPositionOf (ps : List Point) : Vec2 ℚ :=
  (ps.map (fun p => p.mass • p.position)).sum

/-- A sample point mass used as concrete input by witnesses. -/
def samplePoint : Point :=
  { position := ⟨0, 0⟩, velocity := ⟨1, 0⟩, impulse := ⟨2, 2⟩, mass := 2,
    spring := none, num_connections := 0, constraint := none }

/-- A sample triangular body with zero gas force. -/
def sampleInert : SoftBody :=
  { shape := [({ samplePoint with position := ⟨0, 0⟩ }, ⟨⟨1, 50, 10, true, true⟩, 1 / 4⟩),
      ({ samplePoint with position := ⟨2, 0⟩ }, ⟨⟨1, 50, 10, true, true⟩, 1 / 4⟩),
      ({ samplePoint with position := ⟨0, 2⟩ }, ⟨⟨1, 50, 10, true, true⟩, 1 / 4⟩)],
    internal_springs := [],
    bounding_box := ⟨⟨0, 0⟩, ⟨2, 2⟩⟩,
    gas_force := 0,
    pressure := 5,
    attatchment_points := [],
    connection_state := ConnectionState.Disconnected }

/-- The default perimeter edge data. -/
def sampleLine : Line :=
  ⟨⟨1, 50, 10, true, true⟩, 1 / 4⟩

/-- A body with no attachment points, used as a base for concrete states. -/
def emptyBody : SoftBody :=
  { shape := [],
    internal_springs := [],
    bounding_box := ⟨⟨0, 0⟩, ⟨0, 0⟩⟩,
    gas_force := 0,
    pressure := 0,
    attatchment_points := [],
    connection_state := ConnectionState.Disconnected }

/-- A one point body whose point records constraint key 1 in its slot. -/
def cexBodies : SoftBodies :=
  [(0, { emptyBody with
          shape := [({ samplePoint with mass := 1, constraint := some 1 }, sampleLine)] })]

/-- Two one point bodies of equal mass, both points recording constraint
key 0. -/
def c2Bodies : SoftBodies :=
  [(0, { emptyBody with shape := [({ samplePoint with position := ⟨0, 0⟩, velocity := ⟨0, 0⟩, mass := 1, constraint := some 0 }, sampleLine)] }),
   (1, { emptyBody with shape := [({ samplePoint with position := ⟨2, 0⟩, velocity := ⟨4, 0⟩, mass := 1, constraint := some 0 }, sampleLine)] })]

/-- Forget the connection state of a body (the one field the flood fills
may touch). -/
def stripConn (b : SoftBody) : SoftBody :=
  { b with connection_state := ConnectionState.Disconnected }

/-- Forget every connection state in the body collection. -/
def stripAll (m : SoftBodies) : SoftBodies :=
  m.map (fun e => (e.1, stripConn e.2))

/-- The constraints the connect walk builds, read off the indices alone. -/
def walkConstraints (ka kb length_a length_b : ℕ) : ℕ → ℕ → ℕ → List Constraint
  | 0, _, _ => []
  | count + 1, pa, pb =>
    Constraint.mk [⟨ka, pa⟩, ⟨kb, pb⟩] ::
      walkConstraints ka kb length_a length_b count (nextIdx length_a pa) (prevIdx length_b pb)

/-- A span walk applying one update per visited point on each side; the
connect and disconnect walks are instances of it. -/
def genericWalk (ka kb length_a length_b : ℕ) (fa fb : Point → Point) :
    ℕ → ℕ → ℕ → SoftBodies → SoftBodies
  | 0, _, _, m => m
  | count + 1, pa, pb, m =>
    genericWalk ka kb length_a length_b fa fb count (nextIdx length_a pa) (prevIdx length_b pb)
      (modifyPoint (modifyPoint m ⟨ka, pa⟩ fa) ⟨kb, pb⟩ fb)

/-- Indices visited by the forward walk on body a. -/
def aVisits (la count pa : ℕ) : List ℕ :=
  (List.range count).map (fun j => (pa + j) % la)

/-- Indices visited by the backward walk on body b. -/
def bVisits (lb count pb : ℕ) : List ℕ :=
  (List.range count).map (fun j => (pb + (lb - 1) * j) % lb)

/-- A source colored body exposing a span of length 1. -/
def c3A : SoftBody :=
  { emptyBody with shape := [(samplePoint, sampleLine)], attatchment_points := [⟨0, 1, none⟩], connection_state := ConnectionState.Source }

/-- A disconnected body exposing a span of length 2. -/
def c3B : SoftBody :=
  { emptyBody with shape := [(samplePoint, sampleLine)], attatchment_points := [⟨0, 2, none⟩] }

/-- A source colored body with a span of length 1 and a disconnected body
with a span of length 2: connecting them must fail the length check. -/
def c3Sim : Simulation :=
  { soft_bodies := [(0, c3A), (1, c3B)],
    constraints := [],
    next_constraint_key := 0 }

/-- Two clean one point bodies with compatible spans of length 1. -/
def c4Sim : Simulation :=
  { soft_bodies :=
      [(0, { emptyBody with shape := [({ samplePoint with mass := 1 }, sampleLine)], attatchment_points := [⟨0, 1, none⟩] }),
       (1, { emptyBody with shape := [({ samplePoint with mass := 1 }, sampleLine)], attatchment_points := [⟨0, 1, none⟩] })],
    constraints := [],
    next_constraint_key := 0 }

noncomputable section RealArithmetic

open scoped Classical

/-- `f32::EPSILON` as a real number. -/
def epsR : ℝ := 1 / 2 ^ 23

/-- `Vec2::length`, the euclidean norm. -/
def Vec2.length (v : Vec2 ℝ) : ℝ :=
  Real.sqrt (v.x ^ 2 + v.y ^ 2)

/-- `Vec2::normalize_or_zero`: the unit vector in the direction of `v`, or
zero when `v` is the zero vector. -/
def Vec2.normalize_or_zero (v : Vec2 ℝ) : Vec2 ℝ :=
  if v = 0 then 0 else v.length⁻¹ • v

/-- `Vec2::project_onto_normalized`: projection of `v` onto the unit vector
`n`. -/
def Vec2.project_onto_normalized (v n : Vec2 ℝ) : Vec2 ℝ :=
  (v.dot n) • n

/-- A point mass with real coordinates, for the routines that normalize
vectors. -/
structure PointR where
  position : Vec2 ℝ
  velocity : Vec2 ℝ
  impulse : Vec2 ℝ
  mass : ℝ

/-- Spring parameters with real coordinates. -/
structure LinearSpringR where
  target_distance : ℝ
  force_constant : ℝ
  damping : ℝ
  compression : Bool
  tension : Bool

/-- `LinearSpring::get_force`: zero when the endpoints are within machine
epsilon of each other, else the spring and damping force along the
normalized displacement, gated by the compression and tension flags. -/
def LinearSpringR.get_force (s : LinearSpringR) (point_a point_b : PointR) : Vec2 ℝ :=
  let displacement := point_a.position - point_b.position
  let distance := displacement.length
  if distance ≤ epsR then 0
  else
    let normalized_displacement := distance⁻¹ • displacement
    let relative_velocity := point_a.velocity - point_b.velocity
    let normal_velocity := relative_velocity.dot normalized_displacement
    let force := s.force_constant * (s.target_distance - distance)
    let damping := -normal_velocity * s.damping
    let total_force := force + damping
    let total_force :=
      if (s.compression = false ∧ total_force > 0) ∨ (s.tension = false ∧ total_force < 0)
      then 0 else total_force
    total_force • normalized_displacement

/-- `SoftBody::check_point_against_line`: resolves the penetration of
`point` against the edge from `point_a` to `point_b`, with contact point
`closest_point` at fraction `interpolation` along the edge; the scale factor
`1 / (2 t^2 - 2 t + 1)` amplifies the endpoint corrections.  Returns the
updated `(point_a, point_b, point)`. -/
def check_point_against_line (point_a point_b point : PointR) (friction : ℝ)
    (closest_point : Vec2 ℝ) (interpolation : ℝ) : PointR × PointR × PointR :=
  let interpolation_scale := 1 / (2 * interpolation ^ 2 - 2 * interpolation + 1)
  let composite_velocity := Vec2.lerp point_a.velocity point_b.velocity interpolation
  let composite_mass := lerpScalar point_a.mass point_b.mass interpolation * interpolation_scale
  let point_position :=
    Vec2.lerp point.position closest_point (point.mass / (point.mass + composite_mass))
  let composite_position_nudge := point_position - closest_point
  let tangent := Vec2.normalize_or_zero (point_a.position - point_b.position)
  let normal := tangent.perp
  let composite_tangent_velocity := composite_velocity.project_onto_normalized tangent
  let composite_normal_velocity := composite_velocity.project_onto_normalized normal
  let point_tangent_velocity := point.velocity.project_onto_normalized tangent
  let point_normal_velocity := point.velocity.project_onto_normalized normal
  let friction_velocity_nudge :=
    if |friction| ≤ epsR then 0
    else
      let relative_tangent_velocity := point_tangent_velocity - composite_tangent_velocity
      let relative_normal_velocity := point_normal_velocity - composite_normal_velocity
      let fvn := (relative_normal_velocity.length * friction) •
        (-(relative_tangent_velocity.normalize_or_zero))
      if relative_tangent_velocity.dot (relative_tangent_velocity + fvn) < 0 then 0 else fvn
  let weighted_normal_velocity := (point.mass + composite_mass)⁻¹ •
    (point.mass • point_normal_velocity + composite_mass • composite_normal_velocity)
  let point_velocity := point.velocity +
    (weighted_normal_velocity - point_normal_velocity + (1 / 2 : ℝ) • friction_velocity_nudge)
  let composite_velocity_nudge :=
    weighted_normal_velocity - composite_normal_velocity - (1 / 2 : ℝ) • friction_velocity_nudge
  ({ point_a with
      velocity := point_a.velocity +
        ((1 - interpolation) * interpolation_scale) • composite_velocity_nudge,
      position := point_a.position +
        ((1 - interpolation) * interpolation_scale) • composite_position_nudge },
   { point_b with
      velocity := point_b.velocity +
        (interpolation * interpolation_scale) • composite_velocity_nudge,
      position := point_b.position +
        (interpolation * interpolation_scale) • composite_position_nudge },
   { point with position := point_position, velocity := point_velocity })

end RealArithmetic

/-! ## Claim theorems -/

section Vec2Lemmas

variable {R : Type} [Field R]

@[simp] theorem Vec2.add_x (a b : Vec2 R) : (a + b).x = a.x + b.x := rfl

@[simp] theorem Vec2.add_y (a b : Vec2 R) : (a + b).y = a.y + b.y := rfl

@[simp] theorem Vec2.sub_x (a b : Vec2 R) : (a - b).x = a.x - b.x := rfl

@[simp] theorem Vec2.sub_y (a b : Vec2 R) : (a - b).y = a.y - b.y := rfl

@[simp] theorem Vec2.neg_x (a : Vec2 R) : (-a).x = -a.x := rfl

@[simp] theorem Vec2.neg_y (a : Vec2 R) : (-a).y = -a.y := rfl

@[simp] theorem Vec2.zero_x : (0 : Vec2 R).x = 0 := rfl

@[simp] theorem Vec2.zero_y : (0 : Vec2 R).y = 0 := rfl

@[simp] theorem Vec2.smul_x (c : R) (a : Vec2 R) : (c • a).x = c * a.x := rfl

@[simp] theorem Vec2.smul_y (c : R) (a : Vec2 R) : (c • a).y = c * a.y := rfl

theorem Vec2.ext {a b : Vec2 R} (hx : a.x = b.x) (hy : a.y = b.y) : a = b := by
  cases a; cases b; simp_all

@[simp] theorem Vec2.perp_x (a : Vec2 R) : a.perp.x = -a.y := rfl

@[simp] theorem Vec2.perp_y (a : Vec2 R) : a.perp.y = a.x := rfl

@[simp] theorem Vec2.lerp_x (a b : Vec2 R) (s : R) :
    (lerp a b s).x = a.x + s * (b.x - a.x) := rfl

@[simp] theorem Vec2.lerp_y (a b : Vec2 R) (s : R) :
    (lerp a b s).y = a.y + s * (b.y - a.y) := rfl

theorem Vec2.perp_sub (a b : Vec2 R) : (a - b).perp = a.perp - b.perp := by
  apply Vec2.ext <;> simp <;> ring

end Vec2Lemmas

/-- The key algebraic identity behind the position correction: nudging the
edge endpoints by `(1 - t) * s` and `t * s` times the contact nudge, with
`s = 1 / (2 t^2 - 2 t + 1)`, moves the interpolated edge point exactly onto
the corrected position `P`. -/
theorem lerp_nudge_exact (a b P : Vec2 ℝ) (t : ℝ) :
    Vec2.lerp (a + ((1 - t) * (1 / (2 * t ^ 2 - 2 * t + 1))) • (P - Vec2.lerp a b t))
      (b + (t * (1 / (2 * t ^ 2 - 2 * t + 1))) • (P - Vec2.lerp a b t)) t = P := by
  have hu : (2 * t ^ 2 - 2 * t + 1 : ℝ) ≠ 0 := by nlinarith [sq_nonneg (2 * t - 1)]
  apply Vec2.ext
  · simp only [Vec2.lerp_x, Vec2.add_x, Vec2.smul_x, Vec2.sub_x]
    field_simp
    ring
  · simp only [Vec2.lerp_y, Vec2.add_y, Vec2.smul_y, Vec2.sub_y]
    field_simp
    ring

/-- Claim C1: over exact real arithmetic, whenever the interpolation
fraction t lies in the unit interval and the supplied closest point is the
interpolation of the two edge endpoint positions at fraction t, then after
`check_point_against_line` the interpolation of the two corrected endpoint
positions at fraction t is exactly the corrected position of the colliding
point: the scale factor 1 / (2 t^2 - 2 t + 1) makes the correction exact. -/
theorem check_point_against_line_exact (point_a point_b point : PointR) (friction : ℝ)
    (closest_point : Vec2 ℝ) (t : ℝ) (h0 : 0 ≤ t) (h1 : t ≤ 1)
    (hc : closest_point = Vec2.lerp point_a.position point_b.position t) :
    Vec2.lerp
      (check_point_against_line point_a point_b point friction closest_point t).1.position
      (check_point_against_line point_a point_b point friction closest_point t).2.1.position t =
    (check_point_against_line point_a point_b point friction closest_point t).2.2.position := by
  subst hc
  unfold check_point_against_line
  exact lerp_nudge_exact _ _ _ t

/-- Witness for C1 at a concrete edge, contact point and fraction 1/2. -/
theorem check_point_against_line_exact_witness :
    (0 : ℝ) ≤ 1 / 2 ∧ (1 / 2 : ℝ) ≤ 1 ∧
    (⟨1, 0⟩ : Vec2 ℝ) = Vec2.lerp (⟨0, 0⟩ : Vec2 ℝ) ⟨2, 0⟩ (1 / 2) ∧
    Vec2.lerp
      (check_point_against_line ⟨⟨0, 0⟩, ⟨0, 0⟩, ⟨0, 0⟩, 1⟩ ⟨⟨2, 0⟩, ⟨0, 0⟩, ⟨0, 0⟩, 1⟩
        ⟨⟨1, 1⟩, ⟨0, -1⟩, ⟨0, 0⟩, 1⟩ 0 ⟨1, 0⟩ (1 / 2)).1.position
      (check_point_against_line ⟨⟨0, 0⟩, ⟨0, 0⟩, ⟨0, 0⟩, 1⟩ ⟨⟨2, 0⟩, ⟨0, 0⟩, ⟨0, 0⟩, 1⟩
        ⟨⟨1, 1⟩, ⟨0, -1⟩, ⟨0, 0⟩, 1⟩ 0 ⟨1, 0⟩ (1 / 2)).2.1.position (1 / 2) =
    (check_point_against_line ⟨⟨0, 0⟩, ⟨0, 0⟩, ⟨0, 0⟩, 1⟩ ⟨⟨2, 0⟩, ⟨0, 0⟩, ⟨0, 0⟩, 1⟩
      ⟨⟨1, 1⟩, ⟨0, -1⟩, ⟨0, 0⟩, 1⟩ 0 ⟨1, 0⟩ (1 / 2)).2.2.position := by
  have hc : (⟨1, 0⟩ : Vec2 ℝ) = Vec2.lerp (⟨0, 0⟩ : Vec2 ℝ) ⟨2, 0⟩ (1 / 2) := by
    apply Vec2.ext
    · show (1 : ℝ) = 0 + 1 / 2 * (2 - 0)
      norm_num
    · show (0 : ℝ) = 0 + 1 / 2 * (0 - 0)
      norm_num
  exact ⟨by norm_num, by norm_num, hc,
    check_point_against_line_exact _ _ _ 0 _ (1 / 2) (by norm_num) (by norm_num) hc⟩

/-- Claim C8: for a point of mass m with velocity v, impulse j and position
p, one integration step with timestep dt produces velocity v + j / m,
position p + (v / 2) dt + ((v + j / m) / 2) dt, clears the impulse, and
leaves the mass unchanged. -/
theorem point_integration_step (p : Point) (dt : ℚ) (h : 0 < p.mass) :
    (p.apply_impulse_and_velocity dt).velocity = p.velocity + p.mass⁻¹ • p.impulse ∧
    (p.apply_impulse_and_velocity dt).position =
      p.position + dt • ((1 / 2 : ℚ) • p.velocity)
        + dt • ((1 / 2 : ℚ) • (p.velocity + p.mass⁻¹ • p.impulse)) ∧
    (p.apply_impulse_and_velocity dt).impulse = 0 ∧
    (p.apply_impulse_and_velocity dt).mass = p.mass :=
  ⟨rfl, rfl, rfl, rfl⟩

/-- Witness for C8 at a concrete point of mass 2 and timestep 1. -/
theorem point_integration_step_witness :
    0 < samplePoint.mass ∧
    ((samplePoint.apply_impulse_and_velocity 1).velocity =
        samplePoint.velocity + samplePoint.mass⁻¹ • samplePoint.impulse ∧
      (samplePoint.apply_impulse_and_velocity 1).position =
        samplePoint.position + (1 : ℚ) • ((1 / 2 : ℚ) • samplePoint.velocity)
          + (1 : ℚ) • ((1 / 2 : ℚ) •
            (samplePoint.velocity + samplePoint.mass⁻¹ • samplePoint.impulse)) ∧
      (samplePoint.apply_impulse_and_velocity 1).impulse = 0 ∧
      (samplePoint.apply_impulse_and_velocity 1).mass = samplePoint.mass) :=
  ⟨by norm_num [samplePoint], point_integration_step samplePoint 1 (by norm_num [samplePoint])⟩

/-- Claim C7: when the magnitude of the gas force is at most machine
epsilon, `add_pressure_impulse` zeroes the pressure and changes nothing
else, whatever the area and the timestep. -/
theorem add_pressure_impulse_inert (b : SoftBody) (dt : ℚ) (h : |b.gas_force| ≤ eps) :
    (b.add_pressure_impulse dt).pressure = 0 ∧
    (b.add_pressure_impulse dt).shape = b.shape ∧
    (b.add_pressure_impulse dt).internal_springs = b.internal_springs ∧
    (b.add_pressure_impulse dt).bounding_box = b.bounding_box ∧
    (b.add_pressure_impulse dt).gas_force = b.gas_force ∧
    (b.add_pressure_impulse dt).attatchment_points = b.attatchment_points ∧
    (b.add_pressure_impulse dt).connection_state = b.connection_state := by
  unfold SoftBody.add_pressure_impulse
  rw [if_pos h]
  exact ⟨rfl, rfl, rfl, rfl, rfl, rfl, rfl⟩

/-- Witness for C7 at a concrete zero gas force body. -/
theorem add_pressure_impulse_inert_witness :
    |sampleInert.gas_force| ≤ eps ∧
    ((sampleInert.add_pressure_impulse 1).pressure = 0 ∧
      (sampleInert.add_pressure_impulse 1).shape = sampleInert.shape ∧
      (sampleInert.add_pressure_impulse 1).internal_springs = sampleInert.internal_springs ∧
      (sampleInert.add_pressure_impulse 1).bounding_box = sampleInert.bounding_box ∧
      (sampleInert.add_pressure_impulse 1).gas_force = sampleInert.gas_force ∧
      (sampleInert.add_pressure_impulse 1).attatchment_points =
        sampleInert.attatchment_points ∧
      (sampleInert.add_pressure_impulse 1).connection_state =
        sampleInert.connection_state) :=
  ⟨by norm_num [sampleInert, eps], add_pressure_impulse_inert sampleInert 1
    (by norm_num [sampleInert, eps])⟩

/-- Claim C9: whenever the two endpoints of a linear spring are within
machine epsilon of each other, `get_force` returns the zero vector for every
spring configuration: the degenerate case is guarded before the
normalization, so over the exact reals the result is total and zero. -/
theorem linear_spring_zero_separation (s : LinearSpringR) (point_a point_b : PointR)
    (h : (point_a.position - point_b.position).length ≤ epsR) :
    s.get_force point_a point_b = 0 := by
  unfold LinearSpringR.get_force
  exact if_pos h

/-- Witness for C9 at two coincident points. -/
theorem linear_spring_zero_separation_witness :
    ((⟨⟨1, 1⟩, ⟨0, 0⟩, ⟨0, 0⟩, 1⟩ : PointR).position -
        (⟨⟨1, 1⟩, ⟨2, 0⟩, ⟨0, 0⟩, 1⟩ : PointR).position).length ≤ epsR ∧
    LinearSpringR.get_force ⟨1, 50, 10, true, true⟩ ⟨⟨1, 1⟩, ⟨0, 0⟩, ⟨0, 0⟩, 1⟩
      ⟨⟨1, 1⟩, ⟨2, 0⟩, ⟨0, 0⟩, 1⟩ = 0 := by
  have h : ((⟨⟨1, 1⟩, ⟨0, 0⟩, ⟨0, 0⟩, 1⟩ : PointR).position -
      (⟨⟨1, 1⟩, ⟨2, 0⟩, ⟨0, 0⟩, 1⟩ : PointR).position).length ≤ epsR := by
    show Vec2.length ⟨1 - 1, 1 - 1⟩ ≤ epsR
    unfold Vec2.length epsR
    norm_num
  exact ⟨h, linear_spring_zero_separation _ _ _ h⟩

/-- Claim C10: the bounding box containment test is strict on all four
sides, so any point exactly on the boundary is rejected; consequently the
point-in-polygon test of a soft body returns false for every query point on
or outside the boundary of the stored bounding box. -/
theorem bounding_box_boundary_rejected :
    (∀ (box : BoundingBox) (p : Vec2 ℚ),
        p.x = box.min_corner.x ∨ p.x = box.max_corner.x ∨
          p.y = box.min_corner.y ∨ p.y = box.max_corner.y →
        box.contains_point p = false) ∧
    (∀ (b : SoftBody) (p : Vec2 ℚ),
        p.x ≤ b.bounding_box.min_corner.x ∨ b.bounding_box.max_corner.x ≤ p.x ∨
          p.y ≤ b.bounding_box.min_corner.y ∨ b.bounding_box.max_corner.y ≤ p.y →
        b.contains_point p = false) := by
  have hbox : ∀ (box : BoundingBox) (p : Vec2 ℚ),
      p.x ≤ box.min_corner.x ∨ box.max_corner.x ≤ p.x ∨
        p.y ≤ box.min_corner.y ∨ box.max_corner.y ≤ p.y →
      box.contains_point p = false := by
    intro box p hp
    unfold BoundingBox.contains_point
    rcases hp with hp | hp | hp | hp
    · simp [not_lt.mpr hp]
    · simp [not_lt.mpr hp]
    · simp [not_lt.mpr hp]
    · simp [not_lt.mpr hp]
  refine ⟨fun box p hp => hbox box p ?_, fun b p hp => ?_⟩
  · rcases hp with hp | hp | hp | hp
    · exact Or.inl hp.le
    · exact Or.inr (Or.inl hp.ge)
    · exact Or.inr (Or.inr (Or.inl hp.le))
    · exact Or.inr (Or.inr (Or.inr hp.ge))
  · unfold SoftBody.contains_point
    rw [hbox b.bounding_box p hp]
    simp

/-- Witness for C10: a point on the left edge of a box is rejected, and a
point on the bounding box boundary of a concrete body is not contained. -/
theorem bounding_box_boundary_rejected_witness :
    BoundingBox.contains_point ⟨⟨0, 0⟩, ⟨2, 2⟩⟩ ⟨0, 1⟩ = false ∧
    sampleInert.contains_point ⟨0, 1⟩ = false :=
  ⟨bounding_box_boundary_rejected.1 ⟨⟨0, 0⟩, ⟨2, 2⟩⟩ ⟨0, 1⟩ (Or.inl rfl),
   bounding_box_boundary_rejected.2 sampleInert ⟨0, 1⟩ (Or.inl (by norm_num [sampleInert]))⟩

section ListIndexLemmas

theorem modifyIdx_ge {A : Type} (f : A → A) (l : List A) (i : ℕ) (h : l.length ≤ i) :
    modifyIdx f l i = l := by
  induction l generalizing i with
  | nil => rfl
  | cons a as ih =>
    cases i with
    | zero => simp at h
    | succ k =>
      show a :: modifyIdx f as k = a :: as
      rw [ih k (by simpa using h)]

theorem length_modifyIdx {A : Type} (f : A → A) (l : List A) (i : ℕ) :
    (modifyIdx f l i).length = l.length := by
  induction l generalizing i with
  | nil => rfl
  | cons a as ih =>
    cases i with
    | zero => rfl
    | succ k =>
      show (a :: modifyIdx f as k).length = _
      simp [ih]

theorem getD_modifyIdx_ne {A : Type} (f : A → A) (l : List A) (i j : ℕ) (d : A)
    (h : i ≠ j) : (modifyIdx f l i).getD j d = l.getD j d := by
  induction l generalizing i j with
  | nil => rfl
  | cons a as ih =>
    cases i with
    | zero =>
      cases j with
      | zero => exact absurd rfl h
      | succ k => rfl
    | succ i2 =>
      cases j with
      | zero => rfl
      | succ k =>
        show (modifyIdx f as i2).getD k d = as.getD k d
        exact ih i2 k (fun he => h (by rw [he]))

theorem getD_modifyIdx_self {A : Type} (f : A → A) (l : List A) (i : ℕ) (d : A)
    (h : i < l.length) : (modifyIdx f l i).getD i d = f (l.getD i d) := by
  induction l generalizing i with
  | nil => simp at h
  | cons a as ih =>
    cases i with
    | zero => rfl
    | succ k =>
      show (modifyIdx f as k).getD k d = f (as.getD k d)
      exact ih k (by simpa using h)

theorem nextIdx_lt {n : ℕ} (hn : 0 < n) (i : ℕ) : nextIdx n i < n := by
  unfold nextIdx
  split <;> omega

theorem prevIdx_lt {n i : ℕ} (hn : 0 < n) (hi : i < n) : prevIdx n i < n := by
  unfold prevIdx
  split <;> omega

theorem prevIdx_nextIdx {n i : ℕ} (hn : 0 < n) (hi : i < n) :
    prevIdx n (nextIdx n i) = i := by
  unfold nextIdx prevIdx
  split <;> split <;> omega

theorem nextIdx_prevIdx {n j : ℕ} (hn : 0 < n) (hj : j < n) :
    nextIdx n (prevIdx n j) = j := by
  unfold nextIdx prevIdx
  split <;> split <;> omega

theorem list_range_map_sum {M : Type} [AddCommMonoid M] (f : ℕ → M) (n : ℕ) :
    ((List.range n).map f).sum = Finset.sum (Finset.range n) f := by
  induction n with
  | zero => rfl
  | succ k ih =>
    rw [List.range_succ, List.map_append, List.sum_append, Finset.sum_range_succ, ih]
    simp

end ListIndexLemmas

section PressureMomentum

theorem totalImpulse_addImpulseAt (shape : List (Point × Line)) (i : ℕ) (v : Vec2 ℚ)
    (h : i < shape.length) :
    totalImpulse (SoftBody.addImpulseAt shape i v) = totalImpulse shape + v := by
  unfold SoftBody.addImpulseAt
  induction shape generalizing i with
  | nil => simp at h
  | cons a as ih =>
    cases i with
    | zero =>
      show (a.1.impulse + v) + (as.map (fun pl => pl.1.impulse)).sum =
        (a.1.impulse + (as.map (fun pl => pl.1.impulse)).sum) + v
      abel
    | succ k =>
      show a.1.impulse + totalImpulse (modifyIdx _ as k) = _
      rw [ih k (by simpa using h)]
      show a.1.impulse + ((as.map (fun pl => pl.1.impulse)).sum + v) =
        (a.1.impulse + (as.map (fun pl => pl.1.impulse)).sum) + v
      abel

theorem position_addImpulseAt (shape : List (Point × Line)) (i : ℕ) (v : Vec2 ℚ) (j : ℕ) :
    (((SoftBody.addImpulseAt shape i v).getD j pointLineDefault)).1.position =
      ((shape.getD j pointLineDefault)).1.position := by
  unfold SoftBody.addImpulseAt
  rcases eq_or_ne i j with rfl | hne
  · rcases Nat.lt_or_ge i shape.length with hlt | hge
    · rw [getD_modifyIdx_self _ _ _ _ hlt]
    · rw [modifyIdx_ge _ _ _ hge]
  · rw [getD_modifyIdx_ne _ _ _ _ _ hne]

theorem length_addImpulseAt (shape : List (Point × Line)) (i : ℕ) (v : Vec2 ℚ) :
    (SoftBody.addImpulseAt shape i v).length = shape.length :=
  length_modifyIdx _ _ _

theorem pressure_fold_spec (dt2 pr : ℚ) (n : ℕ) (basePos : ℕ → Vec2 ℚ) :
    ∀ (L : List ℕ) (s : List (Point × Line)),
      s.length = n →
      (∀ i ∈ L, i < n) →
      (∀ j, ((s.getD j pointLineDefault)).1.position = basePos j) →
      totalImpulse (L.foldl (fun shape i =>
        SoftBody.addImpulseAt
          (SoftBody.addImpulseAt shape i
            (dt2 • (pr • Vec2.perp ((shape.getD i pointLineDefault).1.position -
              (shape.getD (nextIdx n i) pointLineDefault).1.position))))
          (nextIdx n i)
          (dt2 • (pr • Vec2.perp ((shape.getD i pointLineDefault).1.position -
            (shape.getD (nextIdx n i) pointLineDefault).1.position)))) s) =
      totalImpulse s + (L.map (fun i =>
        dt2 • (pr • Vec2.perp (basePos i - basePos (nextIdx n i))) +
          dt2 • (pr • Vec2.perp (basePos i - basePos (nextIdx n i))))).sum := by
  intro L
  induction L with
  | nil =>
    intro s hs hL hpos
    simp
  | cons i L2 ih =>
    intro s hs hL hpos
    have hi : i < n := hL i (List.mem_cons_self i L2)
    have hnpos : 0 < n := by omega
    have hnext : nextIdx n i < n := nextIdx_lt hnpos i
    have hw : (dt2 • (pr • Vec2.perp ((s.getD i pointLineDefault).1.position -
        (s.getD (nextIdx n i) pointLineDefault).1.position))) =
        dt2 • (pr • Vec2.perp (basePos i - basePos (nextIdx n i))) := by
      rw [hpos i, hpos (nextIdx n i)]
    rw [List.foldl_cons]
    set w := dt2 • (pr • Vec2.perp ((s.getD i pointLineDefault).1.position -
        (s.getD (nextIdx n i) pointLineDefault).1.position)) with hwdef
    have hlen1 : (SoftBody.addImpulseAt s i w).length = n := by
      rw [length_addImpulseAt, hs]
    have hlen2 : (SoftBody.addImpulseAt (SoftBody.addImpulseAt s i w) (nextIdx n i) w).length
        = n := by
      rw [length_addImpulseAt, hlen1]
    have hpos2 : ∀ j, (((SoftBody.addImpulseAt (SoftBody.addImpulseAt s i w) (nextIdx n i)
        w).getD j pointLineDefault)).1.position = basePos j := by
      intro j
      rw [position_addImpulseAt, position_addImpulseAt]
      exact hpos j
    rw [ih _ hlen2 (fun a ha => hL a (List.mem_cons_of_mem i ha)) hpos2]
    rw [totalImpulse_addImpulseAt _ _ _ (by rw [hlen1]; exact hnext),
      totalImpulse_addImpulseAt _ _ _ (by rw [hs]; exact hi)]
    rw [List.map_cons, List.sum_cons, hw]
    abel

/-- Claim C6: for a body whose gas force is not negligible and any
timestep, the pressure pass adds impulses summing to the zero vector across
the whole shape: the total accumulated impulse is unchanged, so pressure
injects no net momentum. -/
theorem add_pressure_impulse_zero_net (b : SoftBody) (dt : ℚ) (h : eps < |b.gas_force|) :
    totalImpulse (b.add_pressure_impulse dt).shape = totalImpulse b.shape := by
  have hmain := pressure_fold_spec (dt / 2) (b.gas_force / b.area) b.shape.length
    (fun j => ((b.shape.getD j pointLineDefault)).1.position)
    (List.range b.shape.length) b.shape rfl
    (fun i hi => List.mem_range.mp hi) (fun j => rfl)
  set n := b.shape.length with hn
  set basePos : ℕ → Vec2 ℚ := fun j => ((b.shape.getD j pointLineDefault)).1.position
    with hbasePos
  have hzero : ((List.range n).map (fun i =>
      (dt / 2) • ((b.gas_force / b.area) • Vec2.perp (basePos i - basePos (nextIdx n i))) +
        (dt / 2) • ((b.gas_force / b.area) •
          Vec2.perp (basePos i - basePos (nextIdx n i))))).sum = 0 := by
    rw [list_range_map_sum]
    rw [Finset.sum_add_distrib]
    have hW : (Finset.sum (Finset.range n) fun i =>
        (dt / 2) • ((b.gas_force / b.area) •
          Vec2.perp (basePos i - basePos (nextIdx n i)))) = 0 := by
      have hsplit : ∀ i ∈ Finset.range n,
          (dt / 2) • ((b.gas_force / b.area) •
            Vec2.perp (basePos i - basePos (nextIdx n i))) =
          (dt / 2) • ((b.gas_force / b.area) • Vec2.perp (basePos i)) -
            (dt / 2) • ((b.gas_force / b.area) • Vec2.perp (basePos (nextIdx n i))) := by
        intro i hi
        rw [Vec2.perp_sub, smul_sub, smul_sub]
      rw [Finset.sum_congr rfl hsplit, Finset.sum_sub_distrib]
      have hreindex : (Finset.sum (Finset.range n) fun i =>
          (dt / 2) • ((b.gas_force / b.area) • Vec2.perp (basePos (nextIdx n i)))) =
          (Finset.sum (Finset.range n) fun i =>
            (dt / 2) • ((b.gas_force / b.area) • Vec2.perp (basePos i))) := by
        rcases Nat.eq_zero_or_pos n with hz | hnpos
        · rw [hz]
          simp
        refine Finset.sum_nbij' (fun a => nextIdx n a) (fun a => prevIdx n a) ?_ ?_ ?_ ?_ ?_
        · intro a ha
          exact Finset.mem_range.mpr (nextIdx_lt hnpos a)
        · intro a ha
          exact Finset.mem_range.mpr (prevIdx_lt hnpos (Finset.mem_range.mp ha))
        · intro a ha
          exact prevIdx_nextIdx hnpos (Finset.mem_range.mp ha)
        · intro a ha
          exact nextIdx_prevIdx hnpos (Finset.mem_range.mp ha)
        · intro a ha
          rfl
      rw [hreindex, sub_self]
    rw [hW, add_zero]
  unfold SoftBody.add_pressure_impulse
  rw [if_neg (not_le.mpr h)]
  exact hmain.trans (by rw [hzero, add_zero])

/-- Witness for C6 at a concrete triangle with unit gas force. -/
theorem add_pressure_impulse_zero_net_witness :
    eps < |SoftBody.gas_force { sampleInert with gas_force := 1 }| ∧
    totalImpulse (SoftBody.add_pressure_impulse { sampleInert with gas_force := 1 } 1).shape =
      totalImpulse ({ sampleInert with gas_force := 1 } : SoftBody).shape :=
  ⟨by norm_num [sampleInert, eps],
   add_pressure_impulse_zero_net { sampleInert with gas_force := 1 } 1
     (by norm_num [sampleInert, eps])⟩

end PressureMomentum

section MapAccessLemmas

theorem get?_modifyIdx_self {A : Type} (f : A → A) (l : List A) (i : ℕ) :
    (modifyIdx f l i).get? i = (l.get? i).map f := by
  induction l generalizing i with
  | nil => rfl
  | cons a as ih =>
    cases i with
    | zero => rfl
    | succ k => exact ih k

theorem get?_modifyIdx_ne {A : Type} (f : A → A) (l : List A) (i j : ℕ) (h : i ≠ j) :
    (modifyIdx f l i).get? j = l.get? j := by
  induction l generalizing i j with
  | nil => rfl
  | cons a as ih =>
    cases i with
    | zero =>
      cases j with
      | zero => exact absurd rfl h
      | succ k => rfl
    | succ i2 =>
      cases j with
      | zero => rfl
      | succ k => exact ih i2 k (fun he => h (by rw [he]))

theorem lookupBody_updateBody_self (m : SoftBodies) (k : ℕ) (f : SoftBody → SoftBody) :
    lookupBody (updateBody m k f) k = (lookupBody m k).map f := by
  induction m with
  | nil => rfl
  | cons e rest ih =>
    by_cases he : e.1 = k
    · unfold updateBody lookupBody
      simp only [List.map_cons, if_pos he]
      rw [List.find?_cons_of_pos _ (by simpa using he),
        List.find?_cons_of_pos _ (by simpa using he)]
      rfl
    · unfold updateBody lookupBody
      simp only [List.map_cons, if_neg he]
      rw [List.find?_cons_of_neg _ (by simpa using he),
        List.find?_cons_of_neg _ (by simpa using he)]
      exact ih

theorem lookupBody_updateBody_ne (m : SoftBodies) (k k2 : ℕ) (f : SoftBody → SoftBody)
    (h : k2 ≠ k) : lookupBody (updateBody m k f) k2 = lookupBody m k2 := by
  induction m with
  | nil => rfl
  | cons e rest ih =>
    unfold updateBody lookupBody
    simp only [List.map_cons]
    by_cases hq : e.1 = k2
    · have hek : ¬ e.1 = k := by
        rw [hq]
        exact h
      rw [if_neg hek]
      rw [List.find?_cons_of_pos _ (by simpa using hq),
        List.find?_cons_of_pos _ (by simpa using hq)]
    · have hfst : (if e.1 = k then (e.1, f e.2) else e).1 = e.1 := by
        split <;> rfl
      rw [List.find?_cons_of_neg _ (by simp [hfst, hq]),
        List.find?_cons_of_neg _ (by simpa using hq)]
      exact ih

theorem getPoint_modifyPoint_self (m : SoftBodies) (h : PointHandle) (f : Point → Point) :
    getPoint (modifyPoint m h f) h = (getPoint m h).map f := by
  unfold getPoint modifyPoint
  rw [lookupBody_updateBody_self]
  cases hb : lookupBody m h.soft_body with
  | none => rfl
  | some b =>
    show ((modifyIdx (fun pl => (f pl.1, pl.2)) b.shape h.index).get? h.index).map Prod.fst =
      ((b.shape.get? h.index).map Prod.fst).map f
    rw [get?_modifyIdx_self, Option.map_map, Option.map_map]
    rfl

theorem getPoint_modifyPoint_ne (m : SoftBodies) (h h2 : PointHandle) (f : Point → Point)
    (hne : h2 ≠ h) : getPoint (modifyPoint m h2 f) h = getPoint m h := by
  unfold getPoint modifyPoint
  by_cases hk : h2.soft_body = h.soft_body
  · have hidx : h2.index ≠ h.index := by
      intro he
      exact hne (by cases h2; cases h; simp_all)
    rw [hk, lookupBody_updateBody_self]
    cases hb : lookupBody m h.soft_body with
    | none => rfl
    | some b =>
      show ((modifyIdx (fun pl => (f pl.1, pl.2)) b.shape h2.index).get? h.index).map
          Prod.fst = _
      rw [get?_modifyIdx_ne _ _ _ _ hidx]
      rfl
  · rw [lookupBody_updateBody_ne _ _ _ _ (fun he => hk he.symm)]

/-- The `getPoint` view of any phase that only rewrites single points:
folding point updates over a handle list with an idempotent update. -/
theorem getPoint_foldl_modify (f : Point → Point) (hid : ∀ p, f (f p) = f p) :
    ∀ (hs : List PointHandle) (m : SoftBodies) (h : PointHandle),
      getPoint (hs.foldl (fun acc x => modifyPoint acc x f) m) h =
        if h ∈ hs then (getPoint m h).map f else getPoint m h := by
  intro hs
  induction hs with
  | nil =>
    intro m h
    simp
  | cons x hs2 ih =>
    intro m h
    rw [List.foldl_cons, ih]
    by_cases hx : h = x
    · subst hx
      by_cases hmem : h ∈ hs2
      · rw [if_pos hmem, if_pos (List.mem_cons_self h hs2)]
        rw [getPoint_modifyPoint_self, Option.map_map]
        cases getPoint m h with
        | none => rfl
        | some p => simp [Function.comp, hid]
      · rw [if_neg hmem, if_pos (List.mem_cons_self h hs2)]
        rw [getPoint_modifyPoint_self]
    · by_cases hmem : h ∈ hs2
      · rw [if_pos hmem, if_pos (List.mem_cons_of_mem x hmem)]
        rw [getPoint_modifyPoint_ne _ _ _ _ (fun he => hx he.symm)]
      · rw [if_neg hmem, if_neg (by simp [hx, hmem])]
        rw [getPoint_modifyPoint_ne _ _ _ _ (fun he => hx he.symm)]

end MapAccessLemmas

section ConstraintApply

/-- The prune loop returns the kept members together with their mass,
momentum and mass moment sums. -/
theorem pruneAndSum_spec (m : SoftBodies) (hs : List PointHandle) :
    pruneAndSum m hs = (keptMembers m hs,
      totalMassOf (resolvedPoints m (keptMembers m hs)),
      weightedVelocityOf (resolvedPoints m (keptMembers m hs)),
      weightedPositionOf (resolvedPoints m (keptMembers m hs))) := by
  induction hs with
  | nil => rfl
  | cons h rest ih =>
    cases hp : getPoint m h with
    | none =>
      have hkept : keptMembers m (h :: rest) = keptMembers m rest := by
        unfold keptMembers
        rw [List.filter_cons, hp]
        rfl
      simp only [pruneAndSum, hp, hkept]
      exact ih
    | some p =>
      cases pc : p.constraint with
      | none =>
        have hkept : keptMembers m (h :: rest) = keptMembers m rest := by
          unfold keptMembers
          rw [List.filter_cons, hp]
          simp [pc]
        simp only [pruneAndSum, hp, pc, hkept]
        exact ih
      | some k =>
        have hkept : keptMembers m (h :: rest) = h :: keptMembers m rest := by
          unfold keptMembers
          rw [List.filter_cons, hp]
          simp [pc]
        have hres : resolvedPoints m (h :: keptMembers m rest) =
            p :: resolvedPoints m (keptMembers m rest) := by
          unfold resolvedPoints
          rw [List.filterMap_cons, hp]
        simp only [pruneAndSum, hp, pc, hkept, hres, ih]
        unfold totalMassOf weightedVelocityOf weightedPositionOf
        simp [List.map_cons, List.sum_cons]

/-- Claim C2 (amended): one application of a `HoldTogether` constraint
prunes in place exactly the member handles that do not resolve to a live
point or whose point has an empty constraint slot (a member whose slot
records a different constraint is kept), and overwrites every remaining
member point with the mass weighted average position and velocity of the
remaining members, taken over the pre-call state; consequently all
remaining members end with identical position and velocity. -/
theorem constraint_apply_averages (c : Constraint) (m : SoftBodies) :
    (c.apply_to_soft_bodies m).1.points = keptMembers m c.points ∧
    ∀ h ∈ keptMembers m c.points,
      getPoint (c.apply_to_soft_bodies m).2 h = (getPoint m h).map (fun p =>
        { p with
            position := (totalMassOf (resolvedPoints m (keptMembers m c.points)))⁻¹ •
              weightedPositionOf (resolvedPoints m (keptMembers m c.points)),
            velocity := (totalMassOf (resolvedPoints m (keptMembers m c.points)))⁻¹ •
              weightedVelocityOf (resolvedPoints m (keptMembers m c.points)) }) := by
  unfold Constraint.apply_to_soft_bodies
  rw [pruneAndSum_spec]
  constructor
  · rfl
  · intro h hmem
    have hfold := getPoint_foldl_modify (fun p =>
      { p with
          position := (totalMassOf (resolvedPoints m (keptMembers m c.points)))⁻¹ •
            weightedPositionOf (resolvedPoints m (keptMembers m c.points)),
          velocity := (totalMassOf (resolvedPoints m (keptMembers m c.points)))⁻¹ •
            weightedVelocityOf (resolvedPoints m (keptMembers m c.points)) })
      (fun p => rfl) (keptMembers m c.points) m h
    rw [if_pos hmem] at hfold
    exact hfold

/-- Witness for C2 at two equal mass points held together: the first member
is kept and ends at the simple average of positions and velocities. -/
theorem constraint_apply_averages_witness :
    (⟨0, 0⟩ : PointHandle) ∈ keptMembers c2Bodies [⟨0, 0⟩, ⟨1, 0⟩] ∧
    getPoint (Constraint.apply_to_soft_bodies (Constraint.mk [⟨0, 0⟩, ⟨1, 0⟩]) c2Bodies).2
        ⟨0, 0⟩ =
      (getPoint c2Bodies ⟨0, 0⟩).map (fun p =>
        { p with
            position := (totalMassOf (resolvedPoints c2Bodies
              (keptMembers c2Bodies [⟨0, 0⟩, ⟨1, 0⟩])))⁻¹ •
              weightedPositionOf (resolvedPoints c2Bodies
                (keptMembers c2Bodies [⟨0, 0⟩, ⟨1, 0⟩])),
            velocity := (totalMassOf (resolvedPoints c2Bodies
              (keptMembers c2Bodies [⟨0, 0⟩, ⟨1, 0⟩])))⁻¹ •
              weightedVelocityOf (resolvedPoints c2Bodies
                (keptMembers c2Bodies [⟨0, 0⟩, ⟨1, 0⟩])) }) :=
  ⟨by decide, (constraint_apply_averages (Constraint.mk [⟨0, 0⟩, ⟨1, 0⟩]) c2Bodies).2
    ⟨0, 0⟩ (by decide)⟩

/-- Counterexample to C2 as stated: the claim says a member whose point no
longer records this constraint in its slot is pruned.  Here the only member
records constraint key 1, so under any storage key other than 1 (such as 0,
as in a fresh simulation) the claim demands pruning; but one application
keeps the member, because the code only prunes on an empty slot. -/
theorem constraint_apply_prune_counterexample :
    (Constraint.apply_to_soft_bodies (Constraint.mk [⟨0, 0⟩]) cexBodies).1.points =
      [⟨0, 0⟩] ∧
    (getPoint cexBodies ⟨0, 0⟩).map Point.constraint = some (some 1) := by
  constructor
  · decide
  · decide

end ConstraintApply

section FloodFill

theorem stripAll_updateBody (m : SoftBodies) (k : ℕ) (f : SoftBody → SoftBody)
    (hf : ∀ b, stripConn (f b) = stripConn b) :
    stripAll (updateBody m k f) = stripAll m := by
  induction m with
  | nil => rfl
  | cons e rest ih =>
    show (((if e.1 = k then (e.1, f e.2) else e)).1,
        stripConn ((if e.1 = k then (e.1, f e.2) else e)).2) ::
        stripAll (updateBody rest k f) = (e.1, stripConn e.2) :: stripAll rest
    have h1 : (((if e.1 = k then (e.1, f e.2) else e)).1,
        stripConn ((if e.1 = k then (e.1, f e.2) else e)).2) = (e.1, stripConn e.2) := by
      split
      · rw [hf]
      · rfl
    rw [h1, ih]

theorem stripAll_connectAttatched (fuel : ℕ) :
    ∀ (k : ℕ) (m : SoftBodies), stripAll (connectAttatched fuel k m) = stripAll m := by
  induction fuel with
  | zero =>
    intro k m
    rfl
  | succ f ih =>
    intro k m
    unfold connectAttatched
    cases hlb : lookupBody m k with
    | none => simp only [hlb]
    | some b =>
      simp only [hlb]
      split
      · have hfold : ∀ (aps : List AttatchmentPoint) (m2 : SoftBodies),
            stripAll (aps.foldl (fun acc ap =>
              match ap.connection with
              | none => acc
              | some h => connectAttatched f h.soft_body acc) m2) = stripAll m2 := by
          intro aps
          induction aps with
          | nil =>
            intro m2
            rfl
          | cons ap rest ihap =>
            intro m2
            rw [List.foldl_cons, ihap]
            cases hc : ap.connection with
            | none => rfl
            | some h2 => exact ih h2.soft_body m2
        rw [hfold]
        split
        · exact stripAll_updateBody _ _ _ (fun bb => rfl)
        · rfl
      · rfl

theorem stripAll_clearConnections (fuel : ℕ) :
    ∀ (k : ℕ) (m : SoftBodies), stripAll (clearConnections fuel k m).2 = stripAll m := by
  induction fuel with
  | zero =>
    intro k m
    rfl
  | succ f ih =>
    intro k m
    unfold clearConnections
    cases hlb : lookupBody m k with
    | none => simp only [hlb]
    | some b =>
      simp only [hlb]
      split
      · have hfold : ∀ (aps : List AttatchmentPoint) (acc : Option ℕ × SoftBodies),
            stripAll ((aps.foldl (fun acc ap =>
              match ap.connection with
              | none => acc
              | some h =>
                let r := clearConnections f h.soft_body acc.2
                (if r.1.isSome then r.1 else acc.1, r.2)) acc)).2 = stripAll acc.2 := by
          intro aps
          induction aps with
          | nil =>
            intro acc
            rfl
          | cons ap rest ihap =>
            intro acc
            rw [List.foldl_cons, ihap]
            cases hc : ap.connection with
            | none => rfl
            | some h2 =>
              show stripAll (clearConnections f h2.soft_body acc.2).2 = stripAll acc.2
              exact ih h2.soft_body acc.2
        rw [hfold]
        have hsnd : ∀ (oo : Option ℕ) (mm : SoftBodies),
            stripAll ((oo, mm) : Option ℕ × SoftBodies).2 = stripAll mm := fun _ _ => rfl
        rw [hsnd]
        split
        · exact stripAll_updateBody _ _ _ (fun bb => rfl)
        · rfl
      · rfl

theorem lookupBody_stripAll (m : SoftBodies) (k : ℕ) :
    lookupBody (stripAll m) k = (lookupBody m k).map stripConn := by
  induction m with
  | nil => rfl
  | cons e rest ih =>
    unfold stripAll lookupBody
    simp only [List.map_cons]
    by_cases hq : e.1 = k
    · rw [List.find?_cons_of_pos _ (by simpa using hq),
        List.find?_cons_of_pos _ (by simpa using hq)]
      rfl
    · rw [List.find?_cons_of_neg _ (by simpa using hq),
        List.find?_cons_of_neg _ (by simpa using hq)]
      exact ih

theorem stripConn_aps (b : SoftBody) :
    (stripConn b).attatchment_points = b.attatchment_points := rfl

theorem stripConn_shape (b : SoftBody) : (stripConn b).shape = b.shape := rfl

theorem connectFlood_constraints (sim : Simulation) (ha hb : AttatchmentPointHandle) :
    (sim.connectFlood ha hb).constraints = sim.constraints := by
  simp only [Simulation.connectFlood]
  split
  · rfl
  · split
    · rfl
    · rfl

theorem connectFlood_key (sim : Simulation) (ha hb : AttatchmentPointHandle) :
    (sim.connectFlood ha hb).next_constraint_key = sim.next_constraint_key := by
  simp only [Simulation.connectFlood]
  split
  · rfl
  · split
    · rfl
    · rfl

theorem connectFlood_strip (sim : Simulation) (ha hb : AttatchmentPointHandle) :
    stripAll (sim.connectFlood ha hb).soft_bodies = stripAll sim.soft_bodies := by
  simp only [Simulation.connectFlood]
  split
  · exact stripAll_connectAttatched _ _ _
  · split
    · exact stripAll_connectAttatched _ _ _
    · rfl

theorem lookup_strip_congr {m1 m2 : SoftBodies} (h : stripAll m1 = stripAll m2) (k : ℕ) :
    (lookupBody m1 k).map stripConn = (lookupBody m2 k).map stripConn := by
  rw [← lookupBody_stripAll, ← lookupBody_stripAll, h]

/-- Extract a live body on the other side of a strip equality. -/
theorem lookup_strip_some {m1 m2 : SoftBodies} (h : stripAll m1 = stripAll m2) {k : ℕ}
    {b : SoftBody} (hb : lookupBody m2 k = some b) :
    ∃ b1, lookupBody m1 k = some b1 ∧ stripConn b1 = stripConn b := by
  have hc := lookup_strip_congr h k
  rw [hb] at hc
  cases hb1 : lookupBody m1 k with
  | none =>
    rw [hb1] at hc
    exact absurd hc (by simp)
  | some b1 =>
    rw [hb1] at hc
    exact ⟨b1, rfl, by simpa using hc⟩

end FloodFill

section ConnectFailure

/-- Claim C3 (amended): calling `connect_attatchment_points` on two valid
handles whose spans differ in length or where either attachment point is
already connected returns the explicit failure `none`, and leaves the
constraint collection, the key counter, and every body - its points
(connection counters and constraint slots included) and its attachment
points - unchanged, except that the connection state flood fill, which the
source runs before validation, may already have recolored bodies. -/
theorem connect_incompatible_fails (sim : Simulation) (ha hb : AttatchmentPointHandle)
    (A B : SoftBody) (apA apB : AttatchmentPoint)
    (hA : lookupBody sim.soft_bodies ha.soft_body = some A)
    (hB : lookupBody sim.soft_bodies hb.soft_body = some B)
    (hapA : A.attatchment_points.get? ha.index = some apA)
    (hapB : B.attatchment_points.get? hb.index = some apB)
    (hfail : apA.length ≠ apB.length ∨ apA.connection.isSome ∨ apB.connection.isSome) :
    (sim.connect_attatchment_points ha hb).1 = none ∧
    (sim.connect_attatchment_points ha hb).2.constraints = sim.constraints ∧
    (sim.connect_attatchment_points ha hb).2.next_constraint_key = sim.next_constraint_key ∧
    ∀ k, (lookupBody (sim.connect_attatchment_points ha hb).2.soft_bodies k).map stripConn =
      (lookupBody sim.soft_bodies k).map stripConn := by
  have hCFc := connectFlood_constraints sim ha hb
  have hCFk := connectFlood_key sim ha hb
  have hCFs := connectFlood_strip sim ha hb
  have hmain : ∀ o S, sim.connect_attatchment_points ha hb = (o, S) →
      o = none ∧ S.constraints = sim.constraints ∧
        S.next_constraint_key = sim.next_constraint_key ∧
        stripAll S.soft_bodies = stripAll sim.soft_bodies := by
    intro o S h
    simp only [Simulation.connect_attatchment_points] at h
    have hfinish : (none, sim.connectFlood ha hb) = (o, S) →
        o = none ∧ S.constraints = sim.constraints ∧
          S.next_constraint_key = sim.next_constraint_key ∧
          stripAll S.soft_bodies = stripAll sim.soft_bodies := by
      intro hpair
      rw [Prod.mk.injEq] at hpair
      obtain ⟨h1, h2⟩ := hpair
      exact ⟨h1.symm, h2 ▸ hCFc, h2 ▸ hCFk, h2 ▸ hCFs⟩
    split at h
    · exact hfinish h
    · split at h
      · next sba sbb heqa heqb =>
        split at h
        · next ap_a ap_b hapa hapb =>
          split at h
          · exact hfinish h
          · next hcond =>
            exfalso
            obtain ⟨A1, hA1, hA1s⟩ := lookup_strip_some hCFs hA
            obtain ⟨B1, hB1, hB1s⟩ := lookup_strip_some hCFs hB
            rw [hA1] at heqa
            rw [hB1] at heqb
            have hsba : sba = A1 := (Option.some.inj heqa).symm
            have hsbb : sbb = B1 := (Option.some.inj heqb).symm
            have hap1 : sba.attatchment_points = A.attatchment_points := by
              rw [hsba, ← stripConn_aps A1, ← stripConn_aps A, hA1s]
            have hap2 : sbb.attatchment_points = B.attatchment_points := by
              rw [hsbb, ← stripConn_aps B1, ← stripConn_aps B, hB1s]
            rw [hap1] at hapa
            rw [hap2] at hapb
            rw [hapa] at hapA
            rw [hapb] at hapB
            have he1 : ap_a = apA := Option.some.inj hapA
            have he2 : ap_b = apB := Option.some.inj hapB
            rw [he1, he2] at hcond
            exact hcond hfail
        · exact hfinish h
      · exact hfinish h
  obtain ⟨h1, h2, h3, h4⟩ := hmain (sim.connect_attatchment_points ha hb).1
    (sim.connect_attatchment_points ha hb).2 rfl
  exact ⟨h1, h2, h3, fun k => lookup_strip_congr h4 k⟩

/-- Witness for C3 at a concrete simulation: spans of length 1 and 2. -/
theorem connect_incompatible_fails_witness :
    (c3Sim.connect_attatchment_points ⟨0, 0⟩ ⟨1, 0⟩).1 = none ∧
    (c3Sim.connect_attatchment_points ⟨0, 0⟩ ⟨1, 0⟩).2.constraints = c3Sim.constraints ∧
    (c3Sim.connect_attatchment_points ⟨0, 0⟩ ⟨1, 0⟩).2.next_constraint_key =
      c3Sim.next_constraint_key ∧
    ∀ k, (lookupBody (c3Sim.connect_attatchment_points ⟨0, 0⟩ ⟨1, 0⟩).2.soft_bodies k).map
        stripConn = (lookupBody c3Sim.soft_bodies k).map stripConn :=
  connect_incompatible_fails c3Sim ⟨0, 0⟩ ⟨1, 0⟩ c3A c3B ⟨0, 1, none⟩ ⟨0, 2, none⟩
    rfl rfl rfl rfl (Or.inl (by decide))

/-- Counterexample to C3 as stated: the flood fill runs before validation,
so a failing connect call can still recolor a body: here body 1 goes from
`Disconnected` to `Connected` although the call returns the failure result
because the span lengths differ. -/
theorem connect_incompatible_fails_counterexample :
    (c3Sim.connect_attatchment_points ⟨0, 0⟩ ⟨1, 0⟩).1 = none ∧
    ((lookupBody c3Sim.soft_bodies 1).map SoftBody.connection_state) =
      some ConnectionState.Disconnected ∧
    ((lookupBody (c3Sim.connect_attatchment_points ⟨0, 0⟩ ⟨1, 0⟩).2.soft_bodies 1).map
      SoftBody.connection_state) = some ConnectionState.Connected := by
  refine ⟨by decide, by decide, by decide⟩

end ConnectFailure

section RoundTripBasics

theorem modifyIdx_fuse {A : Type} (f g : A → A) (l : List A) (i : ℕ) :
    modifyIdx g (modifyIdx f l i) i = modifyIdx (fun a => g (f a)) l i := by
  induction l generalizing i with
  | nil => rfl
  | cons a as ih =>
    cases i with
    | zero => rfl
    | succ k =>
      show a :: modifyIdx g (modifyIdx f as k) k = a :: modifyIdx _ as k
      rw [ih]

theorem modifyIdx_comm {A : Type} (f g : A → A) (l : List A) {i j : ℕ} (h : i ≠ j) :
    modifyIdx g (modifyIdx f l i) j = modifyIdx f (modifyIdx g l j) i := by
  induction l generalizing i j with
  | nil => rfl
  | cons a as ih =>
    cases i with
    | zero =>
      cases j with
      | zero => exact absurd rfl h
      | succ k => rfl
    | succ i2 =>
      cases j with
      | zero => rfl
      | succ k =>
        show a :: modifyIdx g (modifyIdx f as i2) k = a :: modifyIdx f (modifyIdx g as k) i2
        rw [ih (fun he => h (by rw [he]))]

theorem modifyIdx_eq_self {A : Type} (f : A → A) (l : List A) (i : ℕ) (a : A)
    (h : l.get? i = some a) (hf : f a = a) : modifyIdx f l i = l := by
  induction l generalizing i with
  | nil => rfl
  | cons x as ih =>
    cases i with
    | zero =>
      have hx : x = a := Option.some.inj h
      show f x :: as = x :: as
      rw [hx, hf]
    | succ k =>
      show x :: modifyIdx f as k = x :: as
      rw [ih k h]

theorem updateBody_fuse (m : SoftBodies) (k : ℕ) (f g : SoftBody → SoftBody) :
    updateBody (updateBody m k f) k g = updateBody m k (fun b => g (f b)) := by
  unfold updateBody
  rw [List.map_map]
  apply List.map_congr_left
  intro e he
  by_cases hk : e.1 = k
  · simp [Function.comp, hk]
  · simp [Function.comp, hk]

theorem updateBody_comm (m : SoftBodies) {k k2 : ℕ} (hne : k ≠ k2)
    (f g : SoftBody → SoftBody) :
    updateBody (updateBody m k f) k2 g = updateBody (updateBody m k2 g) k f := by
  unfold updateBody
  rw [List.map_map, List.map_map]
  apply List.map_congr_left
  intro e he
  by_cases h1 : e.1 = k
  · have h2 : ¬ e.1 = k2 := by rw [h1]; exact hne
    simp [Function.comp, h1, h2, hne, Ne.symm hne]
  · by_cases h2 : e.1 = k2
    · simp [Function.comp, h1, h2, hne, Ne.symm hne]
    · simp [Function.comp, h1, h2]

theorem modifyPoint_fuse (m : SoftBodies) (h : PointHandle) (f g : Point → Point) :
    modifyPoint (modifyPoint m h f) h g = modifyPoint m h (fun p => g (f p)) := by
  unfold modifyPoint
  rw [updateBody_fuse]
  congr 1
  funext b
  exact congrArg (fun s => { b with shape := s }) (modifyIdx_fuse _ _ _ _)

theorem modifyPoint_comm (m : SoftBodies) {h h2 : PointHandle} (hne : h ≠ h2)
    (f g : Point → Point) :
    modifyPoint (modifyPoint m h f) h2 g = modifyPoint (modifyPoint m h2 g) h f := by
  unfold modifyPoint
  by_cases hk : h.soft_body = h2.soft_body
  · have hidx : h.index ≠ h2.index := by
      intro he
      exact hne (by cases h; cases h2; simp_all)
    rw [hk, updateBody_fuse, updateBody_fuse]
    congr 1
    funext b
    exact congrArg (fun s => { b with shape := s }) (modifyIdx_comm _ _ _ hidx)
  · exact updateBody_comm _ hk _ _

theorem lookup_map_proj_updateBody {α : Type} (π : SoftBody → α) (m : SoftBodies) (k : ℕ)
    (f : SoftBody → SoftBody) (hf : ∀ b, π (f b) = π b) (k2 : ℕ) :
    (lookupBody (updateBody m k f) k2).map π = (lookupBody m k2).map π := by
  by_cases hk : k2 = k
  · subst hk
    rw [lookupBody_updateBody_self, Option.map_map]
    cases lookupBody m k2 with
    | none => rfl
    | some b => simp [Function.comp, hf]
  · rw [lookupBody_updateBody_ne _ _ _ _ hk]

theorem map_proj_strip {α : Type} (π : SoftBody → α) (hπ : ∀ b, π (stripConn b) = π b)
    (o : Option SoftBody) : (o.map stripConn).map π = o.map π := by
  cases o with
  | none => rfl
  | some b => simp [hπ]

theorem lookup_proj_of_strip {α : Type} (π : SoftBody → α)
    (hπ : ∀ b, π (stripConn b) = π b) {m1 m2 : SoftBodies}
    (h : stripAll m1 = stripAll m2) (k : ℕ) :
    (lookupBody m1 k).map π = (lookupBody m2 k).map π := by
  rw [← map_proj_strip π hπ (lookupBody m1 k), lookup_strip_congr h k,
    map_proj_strip π hπ (lookupBody m2 k)]

theorem getPoint_congr_of_shape {m1 m2 : SoftBodies}
    (h : ∀ k, (lookupBody m1 k).map SoftBody.shape = (lookupBody m2 k).map SoftBody.shape)
    (hh : PointHandle) : getPoint m1 hh = getPoint m2 hh := by
  unfold getPoint
  have hs := h hh.soft_body
  cases h1 : lookupBody m1 hh.soft_body with
  | none =>
    cases h2 : lookupBody m2 hh.soft_body with
    | none => rfl
    | some b =>
      rw [h1, h2] at hs
      exact absurd hs (by simp)
  | some b1 =>
    cases h2 : lookupBody m2 hh.soft_body with
    | none =>
      rw [h1, h2] at hs
      exact absurd hs (by simp)
    | some b2 =>
      rw [h1, h2] at hs
      have hb : b1.shape = b2.shape := by simpa using hs
      show (b1.shape.get? hh.index).map Prod.fst = (b2.shape.get? hh.index).map Prod.fst
      rw [hb]

theorem nextIdx_eq_mod {la pa : ℕ} (h : pa < la) : nextIdx la pa = (pa + 1) % la := by
  unfold nextIdx
  split
  · rw [Nat.mod_eq_of_lt (by omega)]
  · have hp : pa = la - 1 := by omega
    subst hp
    rw [show la - 1 + 1 = la by omega, Nat.mod_self]

theorem prevIdx_eq_mod {lb pb : ℕ} (h : pb < lb) : prevIdx lb pb = (pb + (lb - 1)) % lb := by
  unfold prevIdx
  split
  · have h1 : pb + (lb - 1) = (pb - 1) + lb := by omega
    rw [h1, Nat.add_mod_right, Nat.mod_eq_of_lt (by omega)]
  · have h1 : pb = 0 := by omega
    subst h1
    rw [zero_add, Nat.mod_eq_of_lt (by omega)]

theorem aVisits_succ {la count pa : ℕ} (h : pa < la) :
    aVisits la (count + 1) pa = pa :: aVisits la count (nextIdx la pa) := by
  unfold aVisits
  rw [List.range_succ_eq_map, List.map_cons, List.map_map]
  congr 1
  · rw [Nat.add_zero, Nat.mod_eq_of_lt h]
  · rw [nextIdx_eq_mod h]
    apply List.map_congr_left
    intro j hj
    show (pa + (j + 1)) % la = ((pa + 1) % la + j) % la
    rw [Nat.mod_add_mod]
    congr 1
    omega

theorem bVisits_succ {lb count pb : ℕ} (h : pb < lb) :
    bVisits lb (count + 1) pb = pb :: bVisits lb count (prevIdx lb pb) := by
  unfold bVisits
  rw [List.range_succ_eq_map, List.map_cons, List.map_map]
  congr 1
  · rw [Nat.mul_zero, Nat.add_zero, Nat.mod_eq_of_lt h]
  · rw [prevIdx_eq_mod h]
    apply List.map_congr_left
    intro j hj
    show (pb + (lb - 1) * (j + 1)) % lb = ((pb + (lb - 1)) % lb + (lb - 1) * j) % lb
    rw [Nat.mod_add_mod]
    congr 1
    ring

theorem mem_aVisits_lt {la count pa i : ℕ} (h0 : 0 < la) (h : i ∈ aVisits la count pa) :
    i < la := by
  unfold aVisits at h
  rw [List.mem_map] at h
  obtain ⟨j, hj, he⟩ := h
  rw [← he]
  exact Nat.mod_lt _ h0

theorem mem_bVisits_lt {lb count pb i : ℕ} (h0 : 0 < lb) (h : i ∈ bVisits lb count pb) :
    i < lb := by
  unfold bVisits at h
  rw [List.mem_map] at h
  obtain ⟨j, hj, he⟩ := h
  rw [← he]
  exact Nat.mod_lt _ h0

theorem head_not_mem_aVisits {la count pa : ℕ} (h : pa < la) (hc : count < la) :
    pa ∉ aVisits la count (nextIdx la pa) := by
  rw [nextIdx_eq_mod h]
  intro hmem
  unfold aVisits at hmem
  rw [List.mem_map] at hmem
  obtain ⟨j, hj, he⟩ := hmem
  rw [List.mem_range] at hj
  rw [Nat.mod_add_mod] at he
  have he2 : (pa + (1 + j)) % la = (pa + 0) % la := by
    have hrw : pa + (1 + j) = pa + 1 + j := by omega
    rw [hrw, he, Nat.add_zero, Nat.mod_eq_of_lt h]
  have hco : (1 + j) % la = 0 % la := Nat.ModEq.add_left_cancel' pa he2
  rw [Nat.zero_mod, Nat.mod_eq_of_lt (by omega)] at hco
  omega

theorem head_not_mem_bVisits {lb count pb : ℕ} (h : pb < lb) (hc : count < lb) :
    pb ∉ bVisits lb count (prevIdx lb pb) := by
  rw [prevIdx_eq_mod h]
  intro hmem
  unfold bVisits at hmem
  rw [List.mem_map] at hmem
  obtain ⟨j, hj, he⟩ := hmem
  rw [List.mem_range] at hj
  rw [Nat.mod_add_mod] at he
  have he2 : (pb + (lb - 1) * (1 + j)) % lb = (pb + 0) % lb := by
    have hrw : pb + (lb - 1) * (1 + j) = pb + (lb - 1) + (lb - 1) * j := by ring
    rw [hrw, he, Nat.add_zero, Nat.mod_eq_of_lt h]
  have hco : ((lb - 1) * (1 + j)) % lb = 0 % lb := Nat.ModEq.add_left_cancel' pb he2
  rw [Nat.zero_mod] at hco
  have hdvd : lb ∣ (lb - 1) * (1 + j) := Nat.dvd_of_mod_eq_zero hco
  have hcop : Nat.Coprime lb (lb - 1) := by
    have h2 : lb - 1 + 1 = lb := by omega
    have h3 := Nat.gcd_add_self_left 1 (lb - 1)
    unfold Nat.Coprime
    rw [Nat.add_comm] at h3
    nth_rewrite 1 [← h2]
    rw [h3]
    exact Nat.gcd_one_left (lb - 1)
  have hdvd2 : lb ∣ (1 + j) := hcop.dvd_of_dvd_mul_left hdvd
  have := Nat.le_of_dvd (by omega) hdvd2
  omega

theorem handle_ne_of_body {ka kb pa pb : ℕ} (hk : ka ≠ kb) :
    (⟨ka, pa⟩ : PointHandle) ≠ ⟨kb, pb⟩ := by
  intro he
  exact hk (congrArg PointHandle.soft_body he)

/-- What a generic span walk does to every point: the function `fa` is
applied exactly on the visited indices of body a, `fb` on those of body b,
everything else is untouched. -/
theorem genericWalk_spec (ka kb la lb : ℕ) (fa fb : Point → Point) (hk : ka ≠ kb) :
    ∀ (count pa pb : ℕ) (m : SoftBodies),
      pa < la → pb < lb → count ≤ la → count ≤ lb →
      ∀ h, getPoint (genericWalk ka kb la lb fa fb count pa pb m) h =
        if h.soft_body = ka ∧ h.index ∈ aVisits la count pa then (getPoint m h).map fa
        else if h.soft_body = kb ∧ h.index ∈ bVisits lb count pb then (getPoint m h).map fb
        else getPoint m h := by
  intro count
  induction count with
  | zero =>
    intro pa pb m hpa hpb hca hcb h
    simp [genericWalk, aVisits, bVisits]
  | succ c ih =>
    intro pa pb m hpa hpb hca hcb h
    have h0a : 0 < la := by omega
    have h0b : 0 < lb := by omega
    show getPoint (genericWalk ka kb la lb fa fb c (nextIdx la pa) (prevIdx lb pb)
        (modifyPoint (modifyPoint m ⟨ka, pa⟩ fa) ⟨kb, pb⟩ fb)) h = _
    rw [ih (nextIdx la pa) (prevIdx lb pb) _ (nextIdx_lt h0a pa) (prevIdx_lt h0b hpb)
      (by omega) (by omega) h]
    rw [aVisits_succ hpa, bVisits_succ hpb]
    by_cases hha : h.soft_body = ka
    · have hhb : h.soft_body ≠ kb := by rw [hha]; exact hk
      have hbneh : (⟨kb, pb⟩ : PointHandle) ≠ h := by
        intro he
        exact hhb (congrArg PointHandle.soft_body he).symm
      by_cases hidx : h.index = pa
      · have hh : h = ⟨ka, pa⟩ := by cases h; simp_all
        have hnotail : h.index ∉ aVisits la c (nextIdx la pa) := by
          rw [hidx]
          exact head_not_mem_aVisits hpa (by omega)
        rw [if_neg (fun hand => hnotail hand.2), if_neg (fun hand => hhb hand.1),
          if_pos ⟨hha, by rw [hidx]; exact List.mem_cons_self _ _⟩]
        rw [hh, getPoint_modifyPoint_ne _ _ _ _ (handle_ne_of_body (Ne.symm hk)),
          getPoint_modifyPoint_self]
      · have haneh : (⟨ka, pa⟩ : PointHandle) ≠ h := by
          intro he
          exact hidx (congrArg PointHandle.index he).symm
        have hsame : getPoint (modifyPoint (modifyPoint m ⟨ka, pa⟩ fa) ⟨kb, pb⟩ fb) h =
            getPoint m h := by
          rw [getPoint_modifyPoint_ne _ _ _ _ hbneh, getPoint_modifyPoint_ne _ _ _ _ haneh]
        by_cases hmem : h.index ∈ aVisits la c (nextIdx la pa)
        · rw [if_pos ⟨hha, hmem⟩, if_pos ⟨hha, List.mem_cons_of_mem _ hmem⟩, hsame]
        · have hnot3 : ¬(h.soft_body = ka ∧ h.index ∈ pa :: aVisits la c (nextIdx la pa)) := by
            rintro ⟨hh1, hh2⟩
            rcases List.mem_cons.mp hh2 with hh3 | hh3
            · exact hidx hh3
            · exact hmem hh3
          rw [if_neg (fun hand => hmem hand.2), if_neg (fun hand => hhb hand.1), if_neg hnot3,
            if_neg (fun hand => hhb hand.1), hsame]
    · by_cases hhb : h.soft_body = kb
      · have haneh : (⟨ka, pa⟩ : PointHandle) ≠ h := by
          intro he
          exact hha (congrArg PointHandle.soft_body he).symm
        by_cases hidx : h.index = pb
        · have hh : h = ⟨kb, pb⟩ := by cases h; simp_all
          have hnotail : h.index ∉ bVisits lb c (prevIdx lb pb) := by
            rw [hidx]
            exact head_not_mem_bVisits hpb (by omega)
          rw [if_neg (fun hand => hha hand.1), if_neg (fun hand => hnotail hand.2),
            if_neg (fun hand => hha hand.1),
            if_pos ⟨hhb, by rw [hidx]; exact List.mem_cons_self _ _⟩]
          rw [hh, getPoint_modifyPoint_self, getPoint_modifyPoint_ne _ _ _ _
            (handle_ne_of_body hk)]
        · have hbneh : (⟨kb, pb⟩ : PointHandle) ≠ h := by
            intro he
            exact hidx (congrArg PointHandle.index he).symm
          have hsame : getPoint (modifyPoint (modifyPoint m ⟨ka, pa⟩ fa) ⟨kb, pb⟩ fb) h =
              getPoint m h := by
            rw [getPoint_modifyPoint_ne _ _ _ _ hbneh, getPoint_modifyPoint_ne _ _ _ _ haneh]
          by_cases hmem : h.index ∈ bVisits lb c (prevIdx lb pb)
          · rw [if_neg (fun hand => hha hand.1), if_pos ⟨hhb, hmem⟩,
              if_neg (fun hand => hha hand.1), if_pos ⟨hhb, List.mem_cons_of_mem _ hmem⟩, hsame]
          · have hnot3 : ¬(h.soft_body = kb ∧ h.index ∈ pb :: bVisits lb c (prevIdx lb pb)) := by
              rintro ⟨hh1, hh2⟩
              rcases List.mem_cons.mp hh2 with hh3 | hh3
              · exact hidx hh3
              · exact hmem hh3
            rw [if_neg (fun hand => hha hand.1), if_neg (fun hand => hmem hand.2),
              if_neg (fun hand => hha hand.1), if_neg hnot3, hsame]
      · have haneh : (⟨ka, pa⟩ : PointHandle) ≠ h := by
          intro he
          exact hha (congrArg PointHandle.soft_body he).symm
        have hbneh : (⟨kb, pb⟩ : PointHandle) ≠ h := by
          intro he
          exact hhb (congrArg PointHandle.soft_body he).symm
        have hsame : getPoint (modifyPoint (modifyPoint m ⟨ka, pa⟩ fa) ⟨kb, pb⟩ fb) h =
            getPoint m h := by
          rw [getPoint_modifyPoint_ne _ _ _ _ hbneh, getPoint_modifyPoint_ne _ _ _ _ haneh]
        rw [if_neg (fun hand => hha hand.1), if_neg (fun hand => hhb hand.1),
          if_neg (fun hand => hha hand.1), if_neg (fun hand => hhb hand.1), hsame]

theorem connectWalk_fst (ka kb la lb : ℕ) :
    ∀ (count pa pb : ℕ) (m : SoftBodies),
      (connectWalk ka kb la lb count pa pb m).1 =
        genericWalk ka kb la lb (fun p => { p with num_connections := p.num_connections + 1 })
          (fun p => { p with num_connections := p.num_connections + 1 }) count pa pb m := by
  intro count
  induction count with
  | zero =>
    intro pa pb m
    rfl
  | succ c ih =>
    intro pa pb m
    exact ih (nextIdx la pa) (prevIdx lb pb) _

theorem connectWalk_snd (ka kb la lb : ℕ) :
    ∀ (count pa pb : ℕ) (m : SoftBodies),
      (connectWalk ka kb la lb count pa pb m).2 =
        walkConstraints ka kb la lb count pa pb := by
  intro count
  induction count with
  | zero =>
    intro pa pb m
    rfl
  | succ c ih =>
    intro pa pb m
    show Constraint.mk [⟨ka, pa⟩, ⟨kb, pb⟩] ::
        (connectWalk ka kb la lb c (nextIdx la pa) (prevIdx lb pb) _).2 = _
    rw [ih (nextIdx la pa) (prevIdx lb pb) _]
    rfl

theorem disconnectWalk_eq_generic (ka kb la lb : ℕ) (hk : ka ≠ kb) :
    ∀ (count pa pb : ℕ) (m : SoftBodies),
      disconnectWalk ka kb la lb count pa pb m =
        genericWalk ka kb la lb
          (fun p => (fun q =>
            if q.num_connections = 0 then { q with constraint := none } else q)
            ({ p with num_connections := p.num_connections - 1 } : Point))
          (fun p => (fun q =>
            if q.num_connections = 0 then { q with constraint := none } else q)
            ({ p with num_connections := p.num_connections - 1 } : Point))
          count pa pb m := by
  intro count
  induction count with
  | zero =>
    intro pa pb m
    rfl
  | succ c ih =>
    intro pa pb m
    have hba : (⟨kb, pb⟩ : PointHandle) ≠ ⟨ka, pa⟩ := handle_ne_of_body (Ne.symm hk)
    have hstep : modifyPoint (modifyPoint (modifyPoint (modifyPoint m ⟨ka, pa⟩
        (fun p => { p with num_connections := p.num_connections - 1 })) ⟨kb, pb⟩
        (fun p => { p with num_connections := p.num_connections - 1 })) ⟨ka, pa⟩
        (fun p => if p.num_connections = 0 then { p with constraint := none } else p)) ⟨kb, pb⟩
        (fun p => if p.num_connections = 0 then { p with constraint := none } else p) =
        modifyPoint (modifyPoint m ⟨ka, pa⟩
          (fun p => (fun q =>
            if q.num_connections = 0 then { q with constraint := none } else q)
            ({ p with num_connections := p.num_connections - 1 } : Point))) ⟨kb, pb⟩
          (fun p => (fun q =>
            if q.num_connections = 0 then { q with constraint := none } else q)
            ({ p with num_connections := p.num_connections - 1 } : Point)) := by
      rw [modifyPoint_comm _ hba]
      rw [modifyPoint_fuse, modifyPoint_fuse]
    show disconnectWalk ka kb la lb c (nextIdx la pa) (prevIdx lb pb)
        (modifyPoint (modifyPoint (modifyPoint (modifyPoint m ⟨ka, pa⟩
          (fun p => { p with num_connections := p.num_connections - 1 })) ⟨kb, pb⟩
          (fun p => { p with num_connections := p.num_connections - 1 })) ⟨ka, pa⟩
          (fun p => if p.num_connections = 0 then { p with constraint := none } else p)) ⟨kb, pb⟩
          (fun p => if p.num_connections = 0 then { p with constraint := none } else p)) = _
    rw [hstep]
    exact ih (nextIdx la pa) (prevIdx lb pb) _

end RoundTripBasics

section ConnectRoundTrip

/-- `modifyPoint` never touches a body's attachment point list. -/
theorem aps_modifyPoint (m : SoftBodies) (h : PointHandle) (f : Point → Point) (k : ℕ) :
    (lookupBody (modifyPoint m h f) k).map SoftBody.attatchment_points =
      (lookupBody m k).map SoftBody.attatchment_points := by
  unfold modifyPoint
  apply lookup_map_proj_updateBody
  intro b
  rfl

/-- `modifyPoint` preserves every body's point count. -/
theorem len_modifyPoint (m : SoftBodies) (h : PointHandle) (f : Point → Point) (k : ℕ) :
    (lookupBody (modifyPoint m h f) k).map (fun b => b.shape.length) =
      (lookupBody m k).map (fun b => b.shape.length) := by
  unfold modifyPoint
  apply lookup_map_proj_updateBody
  intro b
  exact length_modifyIdx _ _ _

/-- `updateApConn` never touches shapes, so point resolution is unchanged. -/
theorem getPoint_updateApConn (m : SoftBodies) (h : AttatchmentPointHandle)
    (c : Option AttatchmentPointHandle) (h2 : PointHandle) :
    getPoint (updateApConn m h c) h2 = getPoint m h2 := by
  unfold updateApConn
  apply getPoint_congr_of_shape
  intro k
  apply lookup_map_proj_updateBody
  intro b
  rfl

/-- `updateApConn` preserves every body's point count. -/
theorem len_updateApConn (m : SoftBodies) (h : AttatchmentPointHandle)
    (c : Option AttatchmentPointHandle) (k : ℕ) :
    (lookupBody (updateApConn m h c) k).map (fun b => b.shape.length) =
      (lookupBody m k).map (fun b => b.shape.length) := by
  unfold updateApConn
  apply lookup_map_proj_updateBody
  intro b
  rfl

/-- The attachment list of the written body after an `updateApConn`. -/
theorem aps_updateApConn_self (m : SoftBodies) (h : AttatchmentPointHandle)
    (c : Option AttatchmentPointHandle) :
    (lookupBody (updateApConn m h c) h.soft_body).map SoftBody.attatchment_points =
      (lookupBody m h.soft_body).map (fun b =>
        modifyIdx (fun ap => { ap with connection := c }) b.attatchment_points h.index) := by
  unfold updateApConn
  rw [lookupBody_updateBody_self, Option.map_map]
  rfl

/-- `updateApConn` leaves the other bodies entirely alone. -/
theorem lookupBody_updateApConn_ne (m : SoftBodies) (h : AttatchmentPointHandle)
    (c : Option AttatchmentPointHandle) (k : ℕ) (hne : k ≠ h.soft_body) :
    lookupBody (updateApConn m h c) k = lookupBody m k := by
  unfold updateApConn
  exact lookupBody_updateBody_ne _ _ _ _ hne

/-- `updateApConn` leaves the attachment lists of the other bodies alone. -/
theorem aps_updateApConn_ne (m : SoftBodies) (h : AttatchmentPointHandle)
    (c : Option AttatchmentPointHandle) (k : ℕ) (hne : k ≠ h.soft_body) :
    (lookupBody (updateApConn m h c) k).map SoftBody.attatchment_points =
      (lookupBody m k).map SoftBody.attatchment_points := by
  unfold updateApConn
  rw [lookupBody_updateBody_ne _ _ _ _ hne]

/-- A span walk never touches attachment point lists. -/
theorem aps_genericWalk (ka kb la lb : ℕ) (fa fb : Point → Point) :
    ∀ (count pa pb : ℕ) (m : SoftBodies) (k : ℕ),
      (lookupBody (genericWalk ka kb la lb fa fb count pa pb m) k).map
          SoftBody.attatchment_points =
        (lookupBody m k).map SoftBody.attatchment_points := by
  intro count
  induction count with
  | zero =>
    intro pa pb m k
    rfl
  | succ c ih =>
    intro pa pb m k
    show (lookupBody (genericWalk ka kb la lb fa fb c (nextIdx la pa) (prevIdx lb pb)
        (modifyPoint (modifyPoint m ⟨ka, pa⟩ fa) ⟨kb, pb⟩ fb)) k).map
        SoftBody.attatchment_points = _
    rw [ih, aps_modifyPoint, aps_modifyPoint]

/-- A span walk preserves every body's point count. -/
theorem len_genericWalk (ka kb la lb : ℕ) (fa fb : Point → Point) :
    ∀ (count pa pb : ℕ) (m : SoftBodies) (k : ℕ),
      (lookupBody (genericWalk ka kb la lb fa fb count pa pb m) k).map
          (fun b => b.shape.length) =
        (lookupBody m k).map (fun b => b.shape.length) := by
  intro count
  induction count with
  | zero =>
    intro pa pb m k
    rfl
  | succ c ih =>
    intro pa pb m k
    show (lookupBody (genericWalk ka kb la lb fa fb c (nextIdx la pa) (prevIdx lb pb)
        (modifyPoint (modifyPoint m ⟨ka, pa⟩ fa) ⟨kb, pb⟩ fb)) k).map
        (fun b => b.shape.length) = _
    rw [ih, len_modifyPoint, len_modifyPoint]

/-- Point resolution only reads shapes, so it is invariant under the flood
fills (which only recolor connection states). -/
theorem getPoint_congr_of_strip {m1 m2 : SoftBodies} (h : stripAll m1 = stripAll m2)
    (hh : PointHandle) : getPoint m1 hh = getPoint m2 hh :=
  getPoint_congr_of_shape (fun k => lookup_proj_of_strip SoftBody.shape (fun b => rfl) h k) hh

/-- `Simulation::insert_constraint` on a two point constraint whose points
both resolve and have empty slots: both slots get the fresh key, the keyed
constraint is appended, the counter advances, and no replacement removal
runs. -/
theorem insert_constraint_clean (s : Simulation) (h1 h2 : PointHandle) (p1 p2 : Point)
    (hne : h1 ≠ h2)
    (hg1 : getPoint s.soft_bodies h1 = some p1) (hc1 : p1.constraint = none)
    (hg2 : getPoint s.soft_bodies h2 = some p2) (hc2 : p2.constraint = none) :
    s.insert_constraint (Constraint.mk [h1, h2]) =
      (s.next_constraint_key,
       { soft_bodies := modifyPoint (modifyPoint s.soft_bodies h1
           (fun q => { q with constraint := some s.next_constraint_key })) h2
           (fun q => { q with constraint := some s.next_constraint_key }),
         constraints := s.constraints ++ [(s.next_constraint_key, Constraint.mk [h1, h2])],
         next_constraint_key := s.next_constraint_key + 1 }) := by
  have hg2m : getPoint (modifyPoint s.soft_bodies h1
      (fun q => { q with constraint := some s.next_constraint_key })) h2 = some p2 := by
    rw [getPoint_modifyPoint_ne _ _ _ _ hne]
    exact hg2
  simp only [Simulation.insert_constraint, constraintInsert, hg1, hg2m, hc1, hc2]
  rfl

/-- The insert phase of `connect_attatchment_points`: folding
`insert_constraint` over the walk constraints, on a state whose visited
points are all live with empty slots, appends the keyed constraints,
advances the key counter by the walk length, writes some key into each
visited point's slot, and touches nothing else. -/
theorem insert_fold_spec (ka kb la lb : ℕ) (hk : ka ≠ kb) :
    ∀ (count pa pb : ℕ) (s : Simulation),
      pa < la → pb < lb → count ≤ la → count ≤ lb →
      (∀ i ∈ aVisits la count pa,
        ∃ p, getPoint s.soft_bodies ⟨ka, i⟩ = some p ∧ p.constraint = none) →
      (∀ i ∈ bVisits lb count pb,
        ∃ p, getPoint s.soft_bodies ⟨kb, i⟩ = some p ∧ p.constraint = none) →
      ∀ F, F = (walkConstraints ka kb la lb count pa pb).foldl
          (fun s2 c2 => (s2.insert_constraint c2).2) s →
        F.constraints = s.constraints ++
          List.enumFrom s.next_constraint_key (walkConstraints ka kb la lb count pa pb) ∧
        F.next_constraint_key = s.next_constraint_key + count ∧
        (∀ h : PointHandle,
          (h.soft_body = ka ∧ h.index ∈ aVisits la count pa) ∨
            (h.soft_body = kb ∧ h.index ∈ bVisits lb count pb) →
          ∃ kk, getPoint F.soft_bodies h =
            (getPoint s.soft_bodies h).map (fun p => { p with constraint := some kk })) ∧
        (∀ h : PointHandle,
          ¬((h.soft_body = ka ∧ h.index ∈ aVisits la count pa) ∨
            (h.soft_body = kb ∧ h.index ∈ bVisits lb count pb)) →
          getPoint F.soft_bodies h = getPoint s.soft_bodies h) ∧
        (∀ k, (lookupBody F.soft_bodies k).map SoftBody.attatchment_points =
          (lookupBody s.soft_bodies k).map SoftBody.attatchment_points) ∧
        (∀ k, (lookupBody F.soft_bodies k).map (fun b => b.shape.length) =
          (lookupBody s.soft_bodies k).map (fun b => b.shape.length)) := by
  intro count
  induction count with
  | zero =>
    intro pa pb s hpa hpb hca hcb hcla hclb F hF
    subst hF
    refine ⟨by simp [walkConstraints, List.enumFrom], by simp [walkConstraints], ?_, ?_, ?_, ?_⟩
    · intro h hvis
      rcases hvis with ⟨_, hm⟩ | ⟨_, hm⟩
      · exact absurd hm (by simp [aVisits])
      · exact absurd hm (by simp [bVisits])
    · intro h _
      rfl
    · intro k
      rfl
    · intro k
      rfl
  | succ c ih =>
    intro pa pb s hpa hpb hca hcb hcla hclb F hF
    have h0a : 0 < la := by omega
    have h0b : 0 < lb := by omega
    obtain ⟨p1, hg1, hc1⟩ := hcla pa (by rw [aVisits_succ hpa]; exact List.mem_cons_self _ _)
    obtain ⟨p2, hg2, hc2⟩ := hclb pb (by rw [bVisits_succ hpb]; exact List.mem_cons_self _ _)
    have hne12 : (⟨ka, pa⟩ : PointHandle) ≠ ⟨kb, pb⟩ := handle_ne_of_body hk
    have hins := insert_constraint_clean s ⟨ka, pa⟩ ⟨kb, pb⟩ p1 p2 hne12 hg1 hc1 hg2 hc2
    set s1 : Simulation :=
      { soft_bodies := modifyPoint (modifyPoint s.soft_bodies ⟨ka, pa⟩
          (fun q => { q with constraint := some s.next_constraint_key })) ⟨kb, pb⟩
          (fun q => { q with constraint := some s.next_constraint_key }),
        constraints := s.constraints ++
          [(s.next_constraint_key, Constraint.mk [⟨ka, pa⟩, ⟨kb, pb⟩])],
        next_constraint_key := s.next_constraint_key + 1 } with hs1
    have hF1 : F = (walkConstraints ka kb la lb c (nextIdx la pa) (prevIdx lb pb)).foldl
        (fun s2 c2 => (s2.insert_constraint c2).2) s1 := by
      rw [hF]
      show (Constraint.mk [⟨ka, pa⟩, ⟨kb, pb⟩] ::
          walkConstraints ka kb la lb c (nextIdx la pa) (prevIdx lb pb)).foldl
          (fun s2 c2 => (s2.insert_constraint c2).2) s = _
      rw [List.foldl_cons]
      exact congrArg (fun z => List.foldl (fun s2 c2 => (s2.insert_constraint c2).2) z
        (walkConstraints ka kb la lb c (nextIdx la pa) (prevIdx lb pb)))
        (congrArg Prod.snd hins)
    have hs1c : s1.constraints = s.constraints ++
        [(s.next_constraint_key, Constraint.mk [⟨ka, pa⟩, ⟨kb, pb⟩])] := by rw [hs1]
    have hs1k : s1.next_constraint_key = s.next_constraint_key + 1 := by rw [hs1]
    have hg_s1 : ∀ h : PointHandle, h ≠ ⟨ka, pa⟩ → h ≠ ⟨kb, pb⟩ →
        getPoint s1.soft_bodies h = getPoint s.soft_bodies h := by
      intro h hn1 hn2
      rw [hs1]
      show getPoint (modifyPoint (modifyPoint s.soft_bodies ⟨ka, pa⟩
          (fun q => { q with constraint := some s.next_constraint_key })) ⟨kb, pb⟩
          (fun q => { q with constraint := some s.next_constraint_key })) h =
        getPoint s.soft_bodies h
      rw [getPoint_modifyPoint_ne _ _ _ _ (Ne.symm hn2),
        getPoint_modifyPoint_ne _ _ _ _ (Ne.symm hn1)]
    have hca2 : ∀ i ∈ aVisits la c (nextIdx la pa),
        ∃ p, getPoint s1.soft_bodies ⟨ka, i⟩ = some p ∧ p.constraint = none := by
      intro i hi
      have hne_pa : i ≠ pa := by
        intro he
        exact head_not_mem_aVisits hpa (by omega) (he ▸ hi)
      rw [hg_s1 ⟨ka, i⟩ (by intro he; exact hne_pa (congrArg PointHandle.index he))
        (handle_ne_of_body hk)]
      exact hcla i (by rw [aVisits_succ hpa]; exact List.mem_cons_of_mem _ hi)
    have hcb2 : ∀ i ∈ bVisits lb c (prevIdx lb pb),
        ∃ p, getPoint s1.soft_bodies ⟨kb, i⟩ = some p ∧ p.constraint = none := by
      intro i hi
      have hne_pb : i ≠ pb := by
        intro he
        exact head_not_mem_bVisits hpb (by omega) (he ▸ hi)
      rw [hg_s1 ⟨kb, i⟩ (handle_ne_of_body (Ne.symm hk))
        (by intro he; exact hne_pb (congrArg PointHandle.index he))]
      exact hclb i (by rw [bVisits_succ hpb]; exact List.mem_cons_of_mem _ hi)
    obtain ⟨ih1, ih2, ih3, ih4, ih5, ih6⟩ :=
      ih (nextIdx la pa) (prevIdx lb pb) s1 (nextIdx_lt h0a pa) (prevIdx_lt h0b hpb)
        (by omega) (by omega) hca2 hcb2 F hF1
    refine ⟨?_, ?_, ?_, ?_, ?_, ?_⟩
    · rw [ih1, hs1c, hs1k, List.append_assoc]
      rfl
    · rw [ih2, hs1k]
      omega
    · intro h hvis
      rcases hvis with ⟨hbody, hidx⟩ | ⟨hbody, hidx⟩
      · rw [aVisits_succ hpa] at hidx
        rcases List.mem_cons.mp hidx with hhead | htail
        · have hh : h = ⟨ka, pa⟩ := congrArg₂ PointHandle.mk hbody hhead
          have hnott : ¬((h.soft_body = ka ∧ h.index ∈ aVisits la c (nextIdx la pa)) ∨
              (h.soft_body = kb ∧ h.index ∈ bVisits lb c (prevIdx lb pb))) := by
            rintro (⟨_, hm⟩ | ⟨hb2, _⟩)
            · rw [hh] at hm
              exact head_not_mem_aVisits hpa (by omega) hm
            · rw [hh] at hb2
              exact hk hb2
          refine ⟨s.next_constraint_key, ?_⟩
          rw [ih4 h hnott, hh, hs1]
          show getPoint (modifyPoint (modifyPoint s.soft_bodies ⟨ka, pa⟩
              (fun q => { q with constraint := some s.next_constraint_key })) ⟨kb, pb⟩
              (fun q => { q with constraint := some s.next_constraint_key })) ⟨ka, pa⟩ = _
          rw [getPoint_modifyPoint_ne _ _ _ _ (handle_ne_of_body (Ne.symm hk)),
            getPoint_modifyPoint_self]
        · obtain ⟨kk, hkk⟩ := ih3 h (Or.inl ⟨hbody, htail⟩)
          refine ⟨kk, ?_⟩
          rw [hkk, hg_s1 h ?_ ?_]
          · intro he
            rw [he] at htail
            exact head_not_mem_aVisits hpa (by omega) htail
          · intro he
            rw [he] at hbody
            exact hk hbody.symm
      · rw [bVisits_succ hpb] at hidx
        rcases List.mem_cons.mp hidx with hhead | htail
        · have hh : h = ⟨kb, pb⟩ := congrArg₂ PointHandle.mk hbody hhead
          have hnott : ¬((h.soft_body = ka ∧ h.index ∈ aVisits la c (nextIdx la pa)) ∨
              (h.soft_body = kb ∧ h.index ∈ bVisits lb c (prevIdx lb pb))) := by
            rintro (⟨hb2, _⟩ | ⟨_, hm⟩)
            · rw [hh] at hb2
              exact hk hb2.symm
            · rw [hh] at hm
              exact head_not_mem_bVisits hpb (by omega) hm
          refine ⟨s.next_constraint_key, ?_⟩
          rw [ih4 h hnott, hh, hs1]
          show getPoint (modifyPoint (modifyPoint s.soft_bodies ⟨ka, pa⟩
              (fun q => { q with constraint := some s.next_constraint_key })) ⟨kb, pb⟩
              (fun q => { q with constraint := some s.next_constraint_key })) ⟨kb, pb⟩ = _
          rw [getPoint_modifyPoint_self, getPoint_modifyPoint_ne _ _ _ _ (handle_ne_of_body hk)]
        · obtain ⟨kk, hkk⟩ := ih3 h (Or.inr ⟨hbody, htail⟩)
          refine ⟨kk, ?_⟩
          rw [hkk, hg_s1 h ?_ ?_]
          · intro he
            rw [he] at hbody
            exact hk hbody
          · intro he
            rw [he] at htail
            exact head_not_mem_bVisits hpb (by omega) htail
    · intro h hnv
      have hnv2 : ¬((h.soft_body = ka ∧ h.index ∈ aVisits la c (nextIdx la pa)) ∨
          (h.soft_body = kb ∧ h.index ∈ bVisits lb c (prevIdx lb pb))) := by
        rintro (⟨hb1, hm⟩ | ⟨hb1, hm⟩)
        · exact hnv (Or.inl ⟨hb1, by rw [aVisits_succ hpa]; exact List.mem_cons_of_mem _ hm⟩)
        · exact hnv (Or.inr ⟨hb1, by rw [bVisits_succ hpb]; exact List.mem_cons_of_mem _ hm⟩)
      rw [ih4 h hnv2]
      apply hg_s1 h
      · intro he
        refine hnv (Or.inl ⟨by rw [he], ?_⟩)
        rw [he, aVisits_succ hpa]
        exact List.mem_cons_self _ _
      · intro he
        refine hnv (Or.inr ⟨by rw [he], ?_⟩)
        rw [he, bVisits_succ hpb]
        exact List.mem_cons_self _ _
    · intro k
      rw [ih5 k, hs1]
      show (lookupBody (modifyPoint (modifyPoint s.soft_bodies ⟨ka, pa⟩
          (fun q => { q with constraint := some s.next_constraint_key })) ⟨kb, pb⟩
          (fun q => { q with constraint := some s.next_constraint_key })) k).map
          SoftBody.attatchment_points = _
      rw [aps_modifyPoint, aps_modifyPoint]
    · intro k
      rw [ih6 k, hs1]
      show (lookupBody (modifyPoint (modifyPoint s.soft_bodies ⟨ka, pa⟩
          (fun q => { q with constraint := some s.next_constraint_key })) ⟨kb, pb⟩
          (fun q => { q with constraint := some s.next_constraint_key })) k).map
          (fun b => b.shape.length) = _
      rw [len_modifyPoint, len_modifyPoint]

/-- Every member handle of a walk constraint is a visited point of one of
the two spans. -/
theorem walkConstraints_points_mem (ka kb la lb : ℕ) :
    ∀ (count pa pb : ℕ), pa < la → pb < lb →
      ∀ c ∈ walkConstraints ka kb la lb count pa pb, ∀ hh ∈ c.points,
        (hh.soft_body = ka ∧ hh.index ∈ aVisits la count pa) ∨
          (hh.soft_body = kb ∧ hh.index ∈ bVisits lb count pb) := by
  intro count
  induction count with
  | zero =>
    intro pa pb hpa hpb c hc
    exact absurd hc (by simp [walkConstraints])
  | succ cc ih =>
    intro pa pb hpa hpb c hc hh hhmem
    have h0a : 0 < la := by omega
    have h0b : 0 < lb := by omega
    have hcc : walkConstraints ka kb la lb (cc + 1) pa pb =
        Constraint.mk [⟨ka, pa⟩, ⟨kb, pb⟩] ::
          walkConstraints ka kb la lb cc (nextIdx la pa) (prevIdx lb pb) := rfl
    rw [hcc] at hc
    rcases List.mem_cons.mp hc with hc1 | hc2
    · subst hc1
      rcases List.mem_cons.mp hhmem with hm1 | hm2
      · subst hm1
        exact Or.inl ⟨rfl, by rw [aVisits_succ hpa]; exact List.mem_cons_self _ _⟩
      · have hm3 : hh = ⟨kb, pb⟩ := by simpa using hm2
        subst hm3
        exact Or.inr ⟨rfl, by rw [bVisits_succ hpb]; exact List.mem_cons_self _ _⟩
    · rcases ih (nextIdx la pa) (prevIdx lb pb) (nextIdx_lt h0a pa) (prevIdx_lt h0b hpb)
          c hc2 hh hhmem with ⟨hb1, hm⟩ | ⟨hb1, hm⟩
      · exact Or.inl ⟨hb1, by rw [aVisits_succ hpa]; exact List.mem_cons_of_mem _ hm⟩
      · exact Or.inr ⟨hb1, by rw [bVisits_succ hpb]; exact List.mem_cons_of_mem _ hm⟩

/-- One point's round trip: increment the counter, record a constraint key,
then decrement and clear the slot once the counter hits zero - a clean
point comes back unchanged. -/
theorem round_trip_point (p : Point) (kk : ℕ) (hnc : p.num_connections = 0)
    (hcon : p.constraint = none) :
    (fun p2 => (fun q => if q.num_connections = 0 then { q with constraint := none } else q)
        ({ p2 with num_connections := p2.num_connections - 1 } : Point))
      ((fun q => { q with constraint := some kk })
        ((fun p2 => { p2 with num_connections := p2.num_connections + 1 }) p)) = p := by
  cases p with
  | mk pos vel imp mass spr nc con =>
    dsimp only at hnc hcon ⊢
    subst hnc
    subst hcon
    simp

/-- The success path of `connect_attatchment_points`: with two distinct
live bodies, resolvable attachment points, equal span lengths and both
sides unconnected, the call records both connections, runs the connect
walk, and folds the produced constraints into the collection. -/
theorem connect_success_eval (sim : Simulation) (ha hb : AttatchmentPointHandle)
    (A1 B1 : SoftBody) (apA apB : AttatchmentPoint)
    (hk : ha.soft_body ≠ hb.soft_body)
    (hA1 : lookupBody (sim.connectFlood ha hb).soft_bodies ha.soft_body = some A1)
    (hB1 : lookupBody (sim.connectFlood ha hb).soft_bodies hb.soft_body = some B1)
    (hapA : A1.attatchment_points.get? ha.index = some apA)
    (hapB : B1.attatchment_points.get? hb.index = some apB)
    (hlen : apA.length = apB.length)
    (hconnA : apA.connection = none) (hconnB : apB.connection = none) :
    sim.connect_attatchment_points ha hb =
      (some (),
       (connectWalk ha.soft_body hb.soft_body A1.shape.length B1.shape.length
           apA.length apA.start_point
           ((apB.start_point + apB.length - 1) % B1.shape.length)
           (updateApConn (updateApConn (sim.connectFlood ha hb).soft_bodies ha (some hb))
             hb (some ha))).2.foldl
         (fun s c => (s.insert_constraint c).2)
         { sim.connectFlood ha hb with
             soft_bodies := (connectWalk ha.soft_body hb.soft_body A1.shape.length
               B1.shape.length apA.length apA.start_point
               ((apB.start_point + apB.length - 1) % B1.shape.length)
               (updateApConn (updateApConn (sim.connectFlood ha hb).soft_bodies ha (some hb))
                 hb (some ha))).1 }) := by
  simp only [Simulation.connect_attatchment_points]
  rw [if_neg hk]
  simp only [hA1, hB1, hapA, hapB]
  rw [if_neg (by simp [hlen, hconnA, hconnB])]

/-- The success path of `disconnect_attatchment_point`: after the clearing
flood, when the attachment point resolves, records a connection whose far
side points back, and the bodies are distinct, the call resets both
connections, runs the disconnect walk, and recolors from the found source. -/
theorem disconnect_success_eval (sim : Simulation) (ha hb : AttatchmentPointHandle)
    (src : Option ℕ) (m0 : SoftBodies) (A2 B2 : SoftBody) (apA2 apB2 : AttatchmentPoint)
    (W : SoftBodies)
    (M3 : SoftBodies)
    (hM3 : M3 = match src with
      | some s => connectAttatched (sim.soft_bodies.length + 1) s W
      | none => W)
    (hk : ha.soft_body ≠ hb.soft_body)
    (hclear : clearConnections (sim.soft_bodies.length + 1) ha.soft_body sim.soft_bodies =
      (src, m0))
    (hA2 : lookupBody m0 ha.soft_body = some A2)
    (hB2 : lookupBody m0 hb.soft_body = some B2)
    (hapA2 : A2.attatchment_points.get? ha.index = some apA2)
    (hapB2 : B2.attatchment_points.get? hb.index = some apB2)
    (hcA : apA2.connection = some hb)
    (hcB : apB2.connection = some ha)
    (hW : W = disconnectWalk ha.soft_body hb.soft_body A2.shape.length B2.shape.length
      apA2.length apA2.start_point
      ((apB2.start_point + apB2.length - 1) % B2.shape.length)
      (updateApConn (updateApConn m0 ha none) hb none)) :
    sim.disconnect_attatchment_point ha =
      (some (), { sim with soft_bodies := M3 }) := by
  subst hM3
  have hbindA : (lookupBody m0 ha.soft_body).bind
      (fun b => b.attatchment_points.get? ha.index) = some apA2 := by
    rw [hA2]
    exact hapA2
  have hbindB : (lookupBody m0 hb.soft_body).bind
      (fun b => b.attatchment_points.get? hb.index) = some apB2 := by
    rw [hB2]
    exact hapB2
  simp only [Simulation.disconnect_attatchment_point, hclear]
  simp only [hbindA]
  simp only [hcA]
  simp only [hbindB]
  rw [if_neg (by rw [hcB]; simp), if_neg hk]
  simp only [hA2, hB2]
  rw [hW]

/-- Second components of a keyed enumeration are list members. -/
theorem snd_mem_enumFrom {α : Type} :
    ∀ (l : List α) (n : ℕ) (e : ℕ × α), e ∈ List.enumFrom n l → e.2 ∈ l := by
  intro l
  induction l with
  | nil =>
    intro n e he
    exact absurd he (by simp)
  | cons a as ih =>
    intro n e he
    have he2 : e ∈ (n, a) :: List.enumFrom (n + 1) as := he
    rcases List.mem_cons.mp he2 with h1 | h2
    · subst h1
      exact List.mem_cons_self _ _
    · exact List.mem_cons_of_mem _ (ih (n + 1) e h2)

/-- The prune loop drops every member whose point has an empty slot. -/
theorem pruneAndSum_all_none (m : SoftBodies) :
    ∀ hs : List PointHandle,
      (∀ hh ∈ hs, ∀ p, getPoint m hh = some p → p.constraint = none) →
      (pruneAndSum m hs).1 = [] := by
  intro hs
  induction hs with
  | nil =>
    intro _
    rfl
  | cons hh rest ih =>
    intro hcl
    show (match getPoint m hh with
      | none => pruneAndSum m rest
      | some p =>
        if p.constraint = none then pruneAndSum m rest
        else
          let r := pruneAndSum m rest
          (hh :: r.1, p.mass + r.2.1, p.mass • p.velocity + r.2.2.1,
            p.mass • p.position + r.2.2.2)).1 = []
    cases hg : getPoint m hh with
    | none => exact ih (fun x hx => hcl x (List.mem_cons_of_mem _ hx))
    | some p =>
      show (if p.constraint = none then pruneAndSum m rest
        else
          (hh :: (pruneAndSum m rest).1, p.mass + (pruneAndSum m rest).2.1,
            p.mass • p.velocity + (pruneAndSum m rest).2.2.1,
            p.mass • p.position + (pruneAndSum m rest).2.2.2)).1 = []
      rw [if_pos (hcl hh (List.mem_cons_self _ _) p hg)]
      exact ih (fun x hx => hcl x (List.mem_cons_of_mem _ hx))

/-- Claim C4 (amended): connecting two valid, unconnected, equal length
attachment spans on two distinct live bodies whose span points are all
clean (no recorded connections, empty constraint slots) and then
immediately disconnecting one of the pair succeeds both times, restores
every point of every body (connection counters and constraint slots
included) and every attachment point list exactly; the `HoldTogether`
constraints created by the connect are, however, not removed from the
collection - they remain stored (the key counter stays advanced), but each
of them is left referencing no point, so its next application prunes every
member. -/
theorem connect_disconnect_round_trip (sim : Simulation)
    (ha hb : AttatchmentPointHandle) (A B : SoftBody) (apA apB : AttatchmentPoint)
    (hk : ha.soft_body ≠ hb.soft_body)
    (hA : lookupBody sim.soft_bodies ha.soft_body = some A)
    (hB : lookupBody sim.soft_bodies hb.soft_body = some B)
    (hapA : A.attatchment_points.get? ha.index = some apA)
    (hapB : B.attatchment_points.get? hb.index = some apB)
    (hlen : apA.length = apB.length)
    (hconnA : apA.connection = none) (hconnB : apB.connection = none)
    (hpa : apA.start_point < A.shape.length)
    (hLa : apA.length ≤ A.shape.length) (hLb : apA.length ≤ B.shape.length)
    (hlb : 0 < B.shape.length)
    (hclean_a : ∀ i ∈ aVisits A.shape.length apA.length apA.start_point,
      ∃ p, getPoint sim.soft_bodies ⟨ha.soft_body, i⟩ = some p ∧
        p.num_connections = 0 ∧ p.constraint = none)
    (hclean_b : ∀ i ∈ bVisits B.shape.length apA.length
        ((apB.start_point + apB.length - 1) % B.shape.length),
      ∃ p, getPoint sim.soft_bodies ⟨hb.soft_body, i⟩ = some p ∧
        p.num_connections = 0 ∧ p.constraint = none) :
    (sim.connect_attatchment_points ha hb).1 = some () ∧
    ((sim.connect_attatchment_points ha hb).2.disconnect_attatchment_point ha).1 = some () ∧
    (∀ h, getPoint
        ((sim.connect_attatchment_points ha hb).2.disconnect_attatchment_point ha).2.soft_bodies
        h = getPoint sim.soft_bodies h) ∧
    (∀ k, (lookupBody
        ((sim.connect_attatchment_points ha hb).2.disconnect_attatchment_point ha).2.soft_bodies
        k).map SoftBody.attatchment_points =
      (lookupBody sim.soft_bodies k).map SoftBody.attatchment_points) ∧
    ((sim.connect_attatchment_points ha hb).2.disconnect_attatchment_point ha).2.constraints =
      sim.constraints ++ List.enumFrom sim.next_constraint_key
        (walkConstraints ha.soft_body hb.soft_body A.shape.length B.shape.length
          apA.length apA.start_point
          ((apB.start_point + apB.length - 1) % B.shape.length)) ∧
    ((sim.connect_attatchment_points ha hb).2.disconnect_attatchment_point
        ha).2.next_constraint_key = sim.next_constraint_key + apA.length ∧
    ∀ e ∈ List.enumFrom sim.next_constraint_key
        (walkConstraints ha.soft_body hb.soft_body A.shape.length B.shape.length
          apA.length apA.start_point
          ((apB.start_point + apB.length - 1) % B.shape.length)),
      (e.2.apply_to_soft_bodies
        ((sim.connect_attatchment_points ha hb).2.disconnect_attatchment_point
          ha).2.soft_bodies).1 = Constraint.mk [] := by
  have hpb : (apB.start_point + apB.length - 1) % B.shape.length < B.shape.length :=
    Nat.mod_lt _ hlb
  -- connect phase: see through the flood fill, then take the success path
  have hCFs := connectFlood_strip sim ha hb
  have hCFc := connectFlood_constraints sim ha hb
  have hCFk := connectFlood_key sim ha hb
  obtain ⟨A1, hA1, hA1s⟩ := lookup_strip_some hCFs hA
  obtain ⟨B1, hB1, hB1s⟩ := lookup_strip_some hCFs hB
  have hA1aps : A1.attatchment_points = A.attatchment_points := by
    rw [← stripConn_aps A1, hA1s, stripConn_aps]
  have hB1aps : B1.attatchment_points = B.attatchment_points := by
    rw [← stripConn_aps B1, hB1s, stripConn_aps]
  have hA1shape : A1.shape = A.shape := by
    rw [← stripConn_shape A1, hA1s, stripConn_shape]
  have hB1shape : B1.shape = B.shape := by
    rw [← stripConn_shape B1, hB1s, stripConn_shape]
  have hconn := connect_success_eval sim ha hb A1 B1 apA apB hk hA1 hB1
    (by rw [hA1aps]; exact hapA) (by rw [hB1aps]; exact hapB) hlen hconnA hconnB
  rw [hA1shape, hB1shape] at hconn
  rw [connectWalk_fst ha.soft_body hb.soft_body A.shape.length B.shape.length
      apA.length apA.start_point ((apB.start_point + apB.length - 1) % B.shape.length)
      (updateApConn (updateApConn (sim.connectFlood ha hb).soft_bodies ha (some hb))
        hb (some ha)),
    connectWalk_snd ha.soft_body hb.soft_body A.shape.length B.shape.length
      apA.length apA.start_point ((apB.start_point + apB.length - 1) % B.shape.length)
      (updateApConn (updateApConn (sim.connectFlood ha hb).soft_bodies ha (some hb))
        hb (some ha))] at hconn
  set M2 := updateApConn (updateApConn (sim.connectFlood ha hb).soft_bodies ha (some hb))
    hb (some ha) with hM2
  set GW := genericWalk ha.soft_body hb.soft_body A.shape.length B.shape.length
    (fun p => { p with num_connections := p.num_connections + 1 })
    (fun p => { p with num_connections := p.num_connections + 1 })
    apA.length apA.start_point ((apB.start_point + apB.length - 1) % B.shape.length) M2
    with hGW
  set WC := walkConstraints ha.soft_body hb.soft_body A.shape.length B.shape.length
    apA.length apA.start_point ((apB.start_point + apB.length - 1) % B.shape.length)
    with hWC
  have hgM2 : ∀ h2 : PointHandle, getPoint M2 h2 = getPoint sim.soft_bodies h2 := by
    intro h2
    rw [hM2, getPoint_updateApConn, getPoint_updateApConn]
    exact getPoint_congr_of_strip hCFs h2
  have hspec := genericWalk_spec ha.soft_body hb.soft_body A.shape.length B.shape.length
    (fun p => { p with num_connections := p.num_connections + 1 })
    (fun p => { p with num_connections := p.num_connections + 1 }) hk
    apA.length apA.start_point ((apB.start_point + apB.length - 1) % B.shape.length) M2
    hpa hpb hLa hLb
  have hcla3 : ∀ i ∈ aVisits A.shape.length apA.length apA.start_point,
      ∃ p, getPoint GW ⟨ha.soft_body, i⟩ = some p ∧ p.constraint = none := by
    intro i hi
    obtain ⟨p, hp, hpn, hpc⟩ := hclean_a i hi
    refine ⟨{ p with num_connections := p.num_connections + 1 }, ?_, hpc⟩
    rw [hGW, hspec ⟨ha.soft_body, i⟩, if_pos ⟨rfl, hi⟩, hgM2, hp]
    rfl
  have hclb3 : ∀ i ∈ bVisits B.shape.length apA.length
      ((apB.start_point + apB.length - 1) % B.shape.length),
      ∃ p, getPoint GW ⟨hb.soft_body, i⟩ = some p ∧ p.constraint = none := by
    intro i hi
    obtain ⟨p, hp, hpn, hpc⟩ := hclean_b i hi
    refine ⟨{ p with num_connections := p.num_connections + 1 }, ?_, hpc⟩
    rw [hGW, hspec ⟨hb.soft_body, i⟩, if_neg (fun hand => hk hand.1.symm),
      if_pos ⟨rfl, hi⟩, hgM2, hp]
    rfl
  set S3 : Simulation :=
    { soft_bodies := GW,
      constraints := (sim.connectFlood ha hb).constraints,
      next_constraint_key := (sim.connectFlood ha hb).next_constraint_key } with hS3
  set SC := WC.foldl (fun s c => (s.insert_constraint c).2) S3 with hSCdef
  obtain ⟨hf1, hf2, hf3, hf4, hf5, hf6⟩ :=
    insert_fold_spec ha.soft_body hb.soft_body A.shape.length B.shape.length hk
      apA.length apA.start_point ((apB.start_point + apB.length - 1) % B.shape.length)
      S3 hpa hpb hLa hLb hcla3 hclb3 SC hSCdef
  have hS3b : S3.soft_bodies = GW := rfl
  have hS3c : S3.constraints = sim.constraints := hCFc
  have hS3k : S3.next_constraint_key = sim.next_constraint_key := hCFk
  simp only [hS3b] at hf3 hf4 hf5 hf6
  -- disconnect phase
  obtain ⟨src, m0, hclear⟩ : ∃ src m0,
      clearConnections (SC.soft_bodies.length + 1) ha.soft_body SC.soft_bodies =
        (src, m0) := ⟨_, _, rfl⟩
  have hstrip0 : stripAll m0 = stripAll SC.soft_bodies := by
    have := stripAll_clearConnections (SC.soft_bodies.length + 1) ha.soft_body SC.soft_bodies
    rw [hclear] at this
    exact this
  have haps_m0 : ∀ k, (lookupBody m0 k).map SoftBody.attatchment_points =
      (lookupBody M2 k).map SoftBody.attatchment_points := by
    intro k
    rw [lookup_proj_of_strip SoftBody.attatchment_points (fun b => rfl) hstrip0 k, hf5 k, hGW]
    exact aps_genericWalk _ _ _ _ _ _ _ _ _ _ _
  have hlen_m0 : ∀ k, (lookupBody m0 k).map (fun b => b.shape.length) =
      (lookupBody sim.soft_bodies k).map (fun b => b.shape.length) := by
    intro k
    rw [lookup_proj_of_strip (fun b => b.shape.length) (fun b => rfl) hstrip0 k, hf6 k, hGW,
      len_genericWalk _ _ _ _ _ _ _ _ _ _ _, hM2, len_updateApConn, len_updateApConn]
    exact lookup_proj_of_strip (fun b => b.shape.length) (fun b => rfl) hCFs k
  have hapsM2ka : (lookupBody M2 ha.soft_body).map SoftBody.attatchment_points =
      some (modifyIdx (fun ap => { ap with connection := some hb })
        A.attatchment_points ha.index) := by
    rw [hM2, aps_updateApConn_ne _ _ _ _ hk, aps_updateApConn_self, hA1]
    show some (modifyIdx (fun ap => { ap with connection := some hb })
      A1.attatchment_points ha.index) = _
    rw [hA1aps]
  have hapsM2kb : (lookupBody M2 hb.soft_body).map SoftBody.attatchment_points =
      some (modifyIdx (fun ap => { ap with connection := some ha })
        B.attatchment_points hb.index) := by
    rw [hM2, aps_updateApConn_self, lookupBody_updateApConn_ne _ _ _ _ (Ne.symm hk), hB1]
    show some (modifyIdx (fun ap => { ap with connection := some ha })
      B1.attatchment_points hb.index) = _
    rw [hB1aps]
  obtain ⟨A2, hA2, hA2aps⟩ : ∃ A2, lookupBody m0 ha.soft_body = some A2 ∧
      A2.attatchment_points = modifyIdx (fun ap => { ap with connection := some hb })
        A.attatchment_points ha.index := by
    have h1 := (haps_m0 ha.soft_body).trans hapsM2ka
    cases hx : lookupBody m0 ha.soft_body with
    | none =>
      rw [hx] at h1
      exact absurd h1 (by simp)
    | some A2 =>
      rw [hx] at h1
      exact ⟨A2, rfl, by simpa using h1⟩
  obtain ⟨B2, hB2, hB2aps⟩ : ∃ B2, lookupBody m0 hb.soft_body = some B2 ∧
      B2.attatchment_points = modifyIdx (fun ap => { ap with connection := some ha })
        B.attatchment_points hb.index := by
    have h1 := (haps_m0 hb.soft_body).trans hapsM2kb
    cases hx : lookupBody m0 hb.soft_body with
    | none =>
      rw [hx] at h1
      exact absurd h1 (by simp)
    | some B2 =>
      rw [hx] at h1
      exact ⟨B2, rfl, by simpa using h1⟩
  have hA2len : A2.shape.length = A.shape.length := by
    have h1 := hlen_m0 ha.soft_body
    rw [hA2, hA] at h1
    simpa using h1
  have hB2len : B2.shape.length = B.shape.length := by
    have h1 := hlen_m0 hb.soft_body
    rw [hB2, hB] at h1
    simpa using h1
  have hapA2 : A2.attatchment_points.get? ha.index =
      some ({ apA with connection := some hb }) := by
    rw [hA2aps, get?_modifyIdx_self, hapA]
    rfl
  have hapB2 : B2.attatchment_points.get? hb.index =
      some ({ apB with connection := some ha }) := by
    rw [hB2aps, get?_modifyIdx_self, hapB]
    rfl
  set M1 := updateApConn (updateApConn m0 ha none) hb none with hM1
  set DW := disconnectWalk ha.soft_body hb.soft_body A.shape.length B.shape.length
    apA.length apA.start_point ((apB.start_point + apB.length - 1) % B.shape.length) M1
    with hDW
  obtain ⟨M3, hM3⟩ : ∃ M3, M3 = (match src with
      | some s => connectAttatched (SC.soft_bodies.length + 1) s DW
      | none => DW : SoftBodies) := ⟨_, rfl⟩
  have hWeq : DW = disconnectWalk ha.soft_body hb.soft_body A2.shape.length B2.shape.length
      (({ apA with connection := some hb } : AttatchmentPoint)).length
      (({ apA with connection := some hb } : AttatchmentPoint)).start_point
      (((({ apB with connection := some ha } : AttatchmentPoint)).start_point +
        (({ apB with connection := some ha } : AttatchmentPoint)).length - 1) % B2.shape.length)
      (updateApConn (updateApConn m0 ha none) hb none) := by
    rw [hDW, hA2len, hB2len]
  have hdis := disconnect_success_eval SC ha hb src m0 A2 B2
    ({ apA with connection := some hb }) ({ apB with connection := some ha }) DW M3 hM3
    hk hclear hA2 hB2 hapA2 hapB2 rfl rfl hWeq
  have hstripM3 : stripAll M3 = stripAll DW := by
    rw [hM3]
    cases src with
    | none => rfl
    | some s => exact stripAll_connectAttatched _ _ _
  -- the per point round trip
  have hdgen := disconnectWalk_eq_generic ha.soft_body hb.soft_body
    A.shape.length B.shape.length hk apA.length apA.start_point
    ((apB.start_point + apB.length - 1) % B.shape.length) M1
  have hdspec := genericWalk_spec ha.soft_body hb.soft_body A.shape.length B.shape.length
    (fun p => (fun q => if q.num_connections = 0 then { q with constraint := none } else q)
      ({ p with num_connections := p.num_connections - 1 } : Point))
    (fun p => (fun q => if q.num_connections = 0 then { q with constraint := none } else q)
      ({ p with num_connections := p.num_connections - 1 } : Point)) hk
    apA.length apA.start_point ((apB.start_point + apB.length - 1) % B.shape.length) M1
    hpa hpb hLa hLb
  have hgM1 : ∀ h2 : PointHandle, getPoint M1 h2 = getPoint SC.soft_bodies h2 := by
    intro h2
    rw [hM1, getPoint_updateApConn, getPoint_updateApConn]
    exact getPoint_congr_of_strip hstrip0 h2
  have hround : ∀ h, getPoint M3 h = getPoint sim.soft_bodies h := by
    intro h
    rw [getPoint_congr_of_strip hstripM3 h, hDW, hdgen, hdspec h]
    by_cases hva : h.soft_body = ha.soft_body ∧
        h.index ∈ aVisits A.shape.length apA.length apA.start_point
    · rw [if_pos hva, hgM1]
      obtain ⟨kk, hkk⟩ := hf3 h (Or.inl hva)
      rw [hkk, hGW, hspec h, if_pos hva, hgM2 h]
      obtain ⟨p, hp, hpn, hpc⟩ := hclean_a h.index hva.2
      have hh : h = ⟨ha.soft_body, h.index⟩ := congrArg₂ PointHandle.mk hva.1 rfl
      rw [hh, hp]
      exact congrArg some (round_trip_point p kk hpn hpc)
    · by_cases hvb : h.soft_body = hb.soft_body ∧
          h.index ∈ bVisits B.shape.length apA.length
            ((apB.start_point + apB.length - 1) % B.shape.length)
      · rw [if_neg hva, if_pos hvb, hgM1]
        obtain ⟨kk, hkk⟩ := hf3 h (Or.inr hvb)
        rw [hkk, hGW, hspec h, if_neg hva, if_pos hvb, hgM2 h]
        obtain ⟨p, hp, hpn, hpc⟩ := hclean_b h.index hvb.2
        have hh : h = ⟨hb.soft_body, h.index⟩ := congrArg₂ PointHandle.mk hvb.1 rfl
        rw [hh, hp]
        exact congrArg some (round_trip_point p kk hpn hpc)
      · rw [if_neg hva, if_neg hvb, hgM1,
          hf4 h (fun hor => hor.elim hva hvb), hGW, hspec h, if_neg hva, if_neg hvb, hgM2 h]
  -- the attachment lists come back unchanged
  have hapsDW : ∀ k, (lookupBody DW k).map SoftBody.attatchment_points =
      (lookupBody M1 k).map SoftBody.attatchment_points := by
    intro k
    rw [hDW, hdgen]
    exact aps_genericWalk _ _ _ _ _ _ _ _ _ _ _
  have hapsback : ∀ k, (lookupBody M3 k).map SoftBody.attatchment_points =
      (lookupBody sim.soft_bodies k).map SoftBody.attatchment_points := by
    intro k
    rw [lookup_proj_of_strip SoftBody.attatchment_points (fun b => rfl) hstripM3 k,
      hapsDW k, hM1]
    by_cases hka : k = ha.soft_body
    · subst hka
      rw [aps_updateApConn_ne _ _ _ _ hk, aps_updateApConn_self, hA2]
      show some (modifyIdx (fun ap => { ap with connection := none })
        A2.attatchment_points ha.index) = _
      rw [hA2aps, modifyIdx_fuse, hA,
        modifyIdx_eq_self _ _ _ apA hapA ?_]
      · rfl
      · show ({ apA with connection := none } : AttatchmentPoint) = apA
        cases apA with
        | mk s l c =>
          dsimp only at hconnA
          rw [hconnA]
    · by_cases hkb : k = hb.soft_body
      · subst hkb
        rw [aps_updateApConn_self, lookupBody_updateApConn_ne _ _ _ _ (Ne.symm hk), hB2]
        show some (modifyIdx (fun ap => { ap with connection := none })
          B2.attatchment_points hb.index) = _
        rw [hB2aps, modifyIdx_fuse, hB,
          modifyIdx_eq_self _ _ _ apB hapB ?_]
        · rfl
        · show ({ apB with connection := none } : AttatchmentPoint) = apB
          cases apB with
          | mk s l c =>
            dsimp only at hconnB
            rw [hconnB]
      · rw [aps_updateApConn_ne _ _ _ _ hkb, aps_updateApConn_ne _ _ _ _ hka, haps_m0 k, hM2,
          aps_updateApConn_ne _ _ _ _ hkb, aps_updateApConn_ne _ _ _ _ hka]
        exact lookup_proj_of_strip SoftBody.attatchment_points (fun b => rfl) hCFs k
  -- assemble
  have hc1 : (sim.connect_attatchment_points ha hb).1 = some () := congrArg Prod.fst hconn
  have hcsnd : (sim.connect_attatchment_points ha hb).2 = SC := congrArg Prod.snd hconn
  have hdis2 : (sim.connect_attatchment_points ha hb).2.disconnect_attatchment_point ha =
      (some (), { SC with soft_bodies := M3 }) := by
    rw [hcsnd]
    exact hdis
  refine ⟨hc1, ?_, ?_, ?_, ?_, ?_, ?_⟩
  · rw [hdis2]
  · intro h
    rw [hdis2]
    exact hround h
  · intro k
    rw [hdis2]
    exact hapsback k
  · rw [hdis2]
    show SC.constraints = _
    rw [hf1, hS3c, hS3k]
  · rw [hdis2]
    show SC.next_constraint_key = _
    rw [hf2, hS3k]
  · intro e he
    rw [hdis2]
    show Constraint.mk (pruneAndSum M3 e.2.points).1 = Constraint.mk []
    refine congrArg Constraint.mk (pruneAndSum_all_none M3 e.2.points ?_)
    intro hh hhmem p hp
    have hvis := walkConstraints_points_mem ha.soft_body hb.soft_body
      A.shape.length B.shape.length apA.length apA.start_point
      ((apB.start_point + apB.length - 1) % B.shape.length) hpa hpb e.2
      (snd_mem_enumFrom WC sim.next_constraint_key e he) hh hhmem
    rw [hround hh] at hp
    rcases hvis with ⟨hb1, hm⟩ | ⟨hb1, hm⟩
    · obtain ⟨p0, hp0, hn0, hc0⟩ := hclean_a hh.index hm
      have hhh : hh = ⟨ha.soft_body, hh.index⟩ := congrArg₂ PointHandle.mk hb1 rfl
      rw [hhh, hp0] at hp
      exact (Option.some.inj hp) ▸ hc0
    · obtain ⟨p0, hp0, hn0, hc0⟩ := hclean_b hh.index hm
      have hhh : hh = ⟨hb.soft_body, hh.index⟩ := congrArg₂ PointHandle.mk hb1 rfl
      rw [hhh, hp0] at hp
      exact (Option.some.inj hp) ▸ hc0

theorem connect_disconnect_round_trip_witness :
    (c4Sim.connect_attatchment_points ⟨0, 0⟩ ⟨1, 0⟩).1 = some () ∧
    ((c4Sim.connect_attatchment_points ⟨0, 0⟩ ⟨1, 0⟩).2.disconnect_attatchment_point
      ⟨0, 0⟩).1 = some () ∧
    getPoint ((c4Sim.connect_attatchment_points ⟨0, 0⟩ ⟨1, 0⟩).2.disconnect_attatchment_point
      ⟨0, 0⟩).2.soft_bodies ⟨0, 0⟩ = getPoint c4Sim.soft_bodies ⟨0, 0⟩ ∧
    (lookupBody ((c4Sim.connect_attatchment_points ⟨0, 0⟩
        ⟨1, 0⟩).2.disconnect_attatchment_point ⟨0, 0⟩).2.soft_bodies 1).map
      SoftBody.attatchment_points =
      (lookupBody c4Sim.soft_bodies 1).map SoftBody.attatchment_points ∧
    ((c4Sim.connect_attatchment_points ⟨0, 0⟩ ⟨1, 0⟩).2.disconnect_attatchment_point
      ⟨0, 0⟩).2.constraints = [(0, Constraint.mk [⟨0, 0⟩, ⟨1, 0⟩])] ∧
    ((c4Sim.connect_attatchment_points ⟨0, 0⟩ ⟨1, 0⟩).2.disconnect_attatchment_point
      ⟨0, 0⟩).2.next_constraint_key = 1 ∧
    ((Constraint.mk [⟨0, 0⟩, ⟨1, 0⟩]).apply_to_soft_bodies
      ((c4Sim.connect_attatchment_points ⟨0, 0⟩ ⟨1, 0⟩).2.disconnect_attatchment_point
        ⟨0, 0⟩).2.soft_bodies).1 = Constraint.mk [] := by
  obtain ⟨h1, h2, h3, h4, h5, h6, h7⟩ :=
    connect_disconnect_round_trip c4Sim ⟨0, 0⟩ ⟨1, 0⟩ _ _ _ _ (by decide) rfl rfl rfl rfl
      rfl rfl rfl (by decide) (by decide) (by decide) (by decide)
      (by
        intro i hi
        have hi2 : i ∈ ([0] : List ℕ) := hi
        have h0 : i = 0 := by
          rw [List.mem_singleton] at hi2
          exact hi2
        subst h0
        exact ⟨{ samplePoint with mass := 1 }, rfl, rfl, rfl⟩)
      (by
        intro i hi
        have hi2 : i ∈ ([0] : List ℕ) := hi
        have h0 : i = 0 := by
          rw [List.mem_singleton] at hi2
          exact hi2
        subst h0
        exact ⟨{ samplePoint with mass := 1 }, rfl, rfl, rfl⟩)
  exact ⟨h1, h2, h3 ⟨0, 0⟩, h4 1, h5, h6,
    h7 (0, Constraint.mk [⟨0, 0⟩, ⟨1, 0⟩]) (List.mem_singleton.mpr rfl)⟩

/-- Claim C4 counterexample: at `c4Sim`, connecting the two compatible
attachment points and immediately disconnecting succeeds both times, yet
the `HoldTogether` constraint created by the connect call is still stored
in the constraint collection afterwards, so the removal clause of the
original claim fails. -/
theorem connect_disconnect_round_trip_counterexample :
    (c4Sim.connect_attatchment_points ⟨0, 0⟩ ⟨1, 0⟩).1 = some () ∧
    ((c4Sim.connect_attatchment_points ⟨0, 0⟩ ⟨1, 0⟩).2.disconnect_attatchment_point
      ⟨0, 0⟩).1 = some () ∧
    ((c4Sim.connect_attatchment_points ⟨0, 0⟩ ⟨1, 0⟩).2.disconnect_attatchment_point
      ⟨0, 0⟩).2.constraints = [(0, Constraint.mk [⟨0, 0⟩, ⟨1, 0⟩])] ∧
    ((c4Sim.connect_attatchment_points ⟨0, 0⟩ ⟨1, 0⟩).2.disconnect_attatchment_point
      ⟨0, 0⟩).2.constraints ≠ [] :=
  ⟨rfl, rfl, rfl, by decide⟩

end ConnectRoundTrip

section AreaShoelace

/-- Reading a mapped position list agrees with reading the shape. -/
theorem getD_map_position (l : List (Point × Line)) (i : ℕ) (h : i < l.length) :
    (l.map (fun pl => pl.1.position)).getD i 0 = ((l.getD i pointLineDefault).1).position := by
  induction l generalizing i with
  | nil => simp at h
  | cons a as ih =>
    cases i with
    | zero => rfl
    | succ k =>
      simp only [List.map_cons, List.getD_cons_succ]
      exact ih k (by simpa using h)

theorem mod_shift_inv_left {n a : ℕ} (hn : 0 < n) (ha : a < n) :
    ((a + (n - 1)) % n + 1) % n = a := by
  rcases Nat.eq_zero_or_pos a with rfl | hpos
  · have h1 : (0 + (n - 1)) % n = n - 1 := by
      rw [zero_add, Nat.mod_eq_of_lt (by omega)]
    rw [h1]
    have h2 : n - 1 + 1 = n := by omega
    rw [h2, Nat.mod_self]
  · have h1 : a + (n - 1) = (a - 1) + n := by omega
    rw [h1, Nat.add_mod_right, Nat.mod_eq_of_lt (show a - 1 < n by omega)]
    have h2 : a - 1 + 1 = a := by omega
    rw [h2, Nat.mod_eq_of_lt ha]

theorem mod_shift_inv_right {n a : ℕ} (hn : 0 < n) (ha : a < n) :
    ((a + 1) % n + (n - 1)) % n = a := by
  rcases Nat.lt_or_ge (a + 1) n with hlt | hge
  · rw [Nat.mod_eq_of_lt hlt]
    have h1 : a + 1 + (n - 1) = a + n := by omega
    rw [h1, Nat.add_mod_right, Nat.mod_eq_of_lt ha]
  · have he : a + 1 = n := by omega
    rw [he, Nat.mod_self, zero_add, Nat.mod_eq_of_lt (by omega)]
    omega

/-- The source's partially unrolled loop computes the full cyclic sum. -/
theorem area_eq_cyclic_sum (b : SoftBody) (h3 : 3 ≤ b.shape.length) :
    b.area = (Finset.sum (Finset.range b.shape.length) fun i => areaTerm b i) / 2 := by
  set n := b.shape.length with hn
  have hsplit : (Finset.sum (Finset.range n) fun i => areaTerm b i) =
      areaTerm b 0 + ((Finset.sum (Finset.Ico 1 (n - 1)) fun i => areaTerm b i)
        + areaTerm b (n - 1)) := by
    rw [Finset.range_eq_Ico, Finset.sum_eq_sum_Ico_succ_bot (by omega)]
    congr 1
    have h9 := Finset.sum_Ico_succ_top (show 1 ≤ n - 1 by omega) (fun i => areaTerm b i)
    rw [show n - 1 + 1 = n by omega] at h9
    exact h9
  have hterm : ∀ i ∈ Finset.Ico 1 (n - 1), areaTerm b i =
      (b.pos i).x * ((b.pos (i + 1)).y - (b.pos (i - 1)).y) := by
    intro i hi
    rw [Finset.mem_Ico] at hi
    unfold areaTerm
    rw [← hn, Nat.mod_eq_of_lt (by omega)]
    have h1 : i + (n - 1) = (i - 1) + n := by omega
    rw [h1, Nat.add_mod_right, Nat.mod_eq_of_lt (by omega)]
  have hlast : areaTerm b (n - 1) =
      (b.pos (n - 1)).x * ((b.pos 0).y - (b.pos (n - 2)).y) := by
    unfold areaTerm
    rw [← hn]
    have h1 : n - 1 + 1 = n := by omega
    have h2 : n - 1 + (n - 1) = (n - 2) + n := by omega
    rw [h1, Nat.mod_self, h2, Nat.add_mod_right, Nat.mod_eq_of_lt (by omega)]
  have hfirst : areaTerm b 0 = (b.pos 0).x * ((b.pos 1).y - (b.pos (n - 1)).y) := by
    unfold areaTerm
    rw [← hn, zero_add, zero_add, Nat.mod_eq_of_lt (by omega), Nat.mod_eq_of_lt (by omega)]
  unfold SoftBody.area
  rw [← hn, hsplit, Finset.sum_congr rfl hterm, hlast, hfirst]
  ring

/-- The cyclic sum halved is exactly the shoelace formula on the position
list of the shape. -/
theorem cyclic_sum_eq_shoelace (b : SoftBody) (h1 : 1 ≤ b.shape.length) :
    (Finset.sum (Finset.range b.shape.length) fun i => areaTerm b i) / 2 =
      shoelace (b.shape.map (fun pl => pl.1.position)) := by
  set n := b.shape.length with hn
  have hnpos : 0 < n := h1
  have hlen : (b.shape.map (fun pl => pl.1.position)).length = n := by
    rw [List.length_map]
  unfold shoelace
  rw [hlen]
  have hread : ∀ i ∈ Finset.range n,
      Vec2.perp_dot ((b.shape.map (fun pl => pl.1.position)).getD i 0)
        ((b.shape.map (fun pl => pl.1.position)).getD ((i + 1) % n) 0) =
      (b.pos i).x * (b.pos ((i + 1) % n)).y - (b.pos i).y * (b.pos ((i + 1) % n)).x := by
    intro i hi
    rw [Finset.mem_range] at hi
    rw [getD_map_position _ _ (by omega), getD_map_position _ _ (by exact Nat.mod_lt _ hnpos)]
    rfl
  rw [Finset.sum_congr rfl hread]
  have hsub : (Finset.sum (Finset.range n) fun i => areaTerm b i) =
      (Finset.sum (Finset.range n) fun i => (b.pos i).x * (b.pos ((i + 1) % n)).y)
        - (Finset.sum (Finset.range n) fun i =>
            (b.pos i).x * (b.pos ((i + (n - 1)) % n)).y) := by
    rw [← Finset.sum_sub_distrib]
    refine Finset.sum_congr rfl fun i hi => ?_
    unfold areaTerm
    rw [← hn]
    ring
  have hswap : (Finset.sum (Finset.range n) fun i =>
      (b.pos i).x * (b.pos ((i + (n - 1)) % n)).y) =
      (Finset.sum (Finset.range n) fun j => (b.pos j).y * (b.pos ((j + 1) % n)).x) := by
    refine Finset.sum_nbij' (fun a => (a + (n - 1)) % n) (fun a => (a + 1) % n) ?_ ?_ ?_ ?_ ?_
    · intro a ha
      exact Finset.mem_range.mpr (Nat.mod_lt _ hnpos)
    · intro a ha
      exact Finset.mem_range.mpr (Nat.mod_lt _ hnpos)
    · intro a ha
      exact mod_shift_inv_left hnpos (Finset.mem_range.mp ha)
    · intro a ha
      exact mod_shift_inv_right hnpos (Finset.mem_range.mp ha)
    · intro a ha
      rw [mod_shift_inv_left hnpos (Finset.mem_range.mp ha)]
      ring
  rw [hsub, hswap, ← Finset.sum_sub_distrib]

/-- Reversal bridging: reading the reversed list. -/
theorem getD_reverse (pts : List (Vec2 ℚ)) (i : ℕ) (h : i < pts.length) :
    pts.reverse.getD i 0 = pts.getD (pts.length - 1 - i) 0 := by
  rw [List.getD_eq_getElem?_getD, List.getD_eq_getElem?_getD, List.getElem?_reverse h]

theorem revmap_involution {n a : ℕ} (hpos : 0 < n) (ha : a < n) :
    (2 * n - 2 - ((2 * n - 2 - a) % n)) % n = a := by
  rcases Nat.lt_or_ge a (n - 1) with hlt | hge
  · have hj : (2 * n - 2 - a) % n = n - 2 - a := by
      have h1 : 2 * n - 2 - a = (n - 2 - a) + n := by omega
      rw [h1, Nat.add_mod_right, Nat.mod_eq_of_lt (by omega)]
    rw [hj]
    have h2 : 2 * n - 2 - (n - 2 - a) = a + n := by omega
    rw [h2, Nat.add_mod_right, Nat.mod_eq_of_lt ha]
  · have hae : a = n - 1 := by omega
    subst hae
    have hj : (2 * n - 2 - (n - 1)) % n = n - 1 := by
      have h1 : 2 * n - 2 - (n - 1) = n - 1 := by omega
      rw [h1, Nat.mod_eq_of_lt (by omega)]
    rw [hj, hj]

/-- Reversing the vertex list negates the shoelace signed area. -/
theorem shoelace_reverse (pts : List (Vec2 ℚ)) :
    shoelace pts.reverse = -shoelace pts := by
  rcases Nat.eq_zero_or_pos pts.length with hz | hpos
  · unfold shoelace
    rw [List.length_reverse, hz]
    simp
  set n := pts.length with hn
  unfold shoelace
  rw [List.length_reverse, ← hn]
  rw [← neg_div]
  congr 1
  have hterm : ∀ i ∈ Finset.range n,
      Vec2.perp_dot (pts.reverse.getD i 0) (pts.reverse.getD ((i + 1) % n) 0) =
        (fun j => -Vec2.perp_dot (pts.getD j 0) (pts.getD ((j + 1) % n) 0))
          ((2 * n - 2 - i) % n) := by
    intro i hi
    rw [Finset.mem_range] at hi
    rcases Nat.lt_or_ge i (n - 1) with hlt | hge
    · have hi1 : (i + 1) % n = i + 1 := Nat.mod_eq_of_lt (by omega)
      have hj : (2 * n - 2 - i) % n = n - 2 - i := by
        have h1 : 2 * n - 2 - i = (n - 2 - i) + n := by omega
        rw [h1, Nat.add_mod_right, Nat.mod_eq_of_lt (by omega)]
      have hj1 : (n - 2 - i + 1) % n = n - 1 - i := by
        rw [Nat.mod_eq_of_lt (by omega)]
        omega
      rw [hi1, hj]
      rw [getD_reverse _ _ (by omega), getD_reverse _ _ (by omega)]
      simp only [← hn, hj1]
      have ha : n - 1 - i = n - 2 - i + 1 := by omega
      have hb : n - 1 - (i + 1) = n - 2 - i := by omega
      rw [ha, hb]
      unfold Vec2.perp_dot
      ring
    · have hie : i = n - 1 := by omega
      subst hie
      have hi1 : (n - 1 + 1) % n = 0 := by
        have h1 : n - 1 + 1 = n := by omega
        rw [h1, Nat.mod_self]
      have hj : (2 * n - 2 - (n - 1)) % n = n - 1 := by
        have h1 : 2 * n - 2 - (n - 1) = n - 1 := by omega
        rw [h1, Nat.mod_eq_of_lt (by omega)]
      rw [hi1, hj]
      rw [getD_reverse _ _ (by omega), getD_reverse _ _ (by omega)]
      simp only [← hn]
      have ha : n - 1 - (n - 1) = 0 := by omega
      have hb : n - 1 - 0 = n - 1 := by omega
      rw [ha, hb, hi1]
      unfold Vec2.perp_dot
      ring
  rw [Finset.sum_congr rfl hterm, ← Finset.sum_neg_distrib]
  refine Finset.sum_nbij' (fun a => (2 * n - 2 - a) % n) (fun a => (2 * n - 2 - a) % n)
    ?_ ?_ ?_ ?_ ?_
  · intro a ha
    exact Finset.mem_range.mpr (Nat.mod_lt _ hpos)
  · intro a ha
    exact Finset.mem_range.mpr (Nat.mod_lt _ hpos)
  · intro a ha
    rw [Finset.mem_range] at ha
    exact revmap_involution hpos ha
  · intro a ha
    rw [Finset.mem_range] at ha
    exact revmap_involution hpos ha
  · intro a ha
    rfl

/-- Claim C5: for a body with at least three points, `area` is the shoelace
signed area of the point positions (counterclockwise positive), and
reversing the point order of the shape negates the returned value. -/
theorem soft_body_area_signed (b : SoftBody) (h3 : 3 ≤ b.shape.length) :
    b.area = shoelace (b.shape.map (fun pl => pl.1.position)) ∧
    SoftBody.area { b with shape := b.shape.reverse } = -b.area := by
  have hmain : ∀ c : SoftBody, 3 ≤ c.shape.length →
      c.area = shoelace (c.shape.map (fun pl => pl.1.position)) := by
    intro c hc
    rw [area_eq_cyclic_sum c hc, cyclic_sum_eq_shoelace c (by omega)]
  have hb := hmain b h3
  refine ⟨hb, ?_⟩
  have hrevlen : ({ b with shape := b.shape.reverse } : SoftBody).shape.length =
      b.shape.length := by
    simp
  have hrev := hmain { b with shape := b.shape.reverse } (by rw [hrevlen]; exact h3)
  rw [hrev, hb]
  have hmaprev : (({ b with shape := b.shape.reverse } : SoftBody).shape.map
      (fun pl => pl.1.position)) = (b.shape.map (fun pl => pl.1.position)).reverse := by
    simp
  rw [hmaprev, shoelace_reverse]

/-- Witness for C5 at a concrete counterclockwise triangle. -/
theorem soft_body_area_signed_witness :
    3 ≤ sampleInert.shape.length ∧
    (sampleInert.area = shoelace (sampleInert.shape.map (fun pl => pl.1.position)) ∧
      SoftBody.area { sampleInert with shape := sampleInert.shape.reverse } =
        -sampleInert.area) :=
  ⟨by norm_num [sampleInert], soft_body_area_signed sampleInert (by norm_num [sampleInert])⟩

end AreaShoelace

end JelloSpacePond
